import Mathlib

/-!
Auto-Solver-AI: the control core of `src/main.cpp`.

A shallow embedding of the `BotState` globals, the `BotCore` routines and the
`PlayLayerHook` tick driver.

A C++ `float` is embedded as the rational it holds (every finite binary32 value
is one; NaN and the infinities are not represented).  Every routine with
`float` arithmetic takes a parameter `fl : ℚ → ℚ`, the rounding applied to the
exact result of each single `float` operation, in the order the source
performs them:

* `F32.round` is binary32 (round to nearest, ties to even, one rounding per
  operation), which is what the code runs on;
* `id` is exact arithmetic, which the statements made "over exact
  arithmetic" are about.

Comparisons and `std::abs` are exact on stored values and take no rounding.
Literals that are binary32 values (`75.0f`, `800.0f`, `0.5f`, ...) are written
as they are; the others (`1.2f`, `0.01f`, `0.15f`) are `fl` of their decimal.
Host calls `pushButton(Jump)` / `releaseButton(Jump)` are embedded as emitted
signals, collected in order in the result of the routine that makes them.
-/

/-- Modelled from the spec: the host type `cocos2d::CCRect` is not part of the
sources; the spec describes a hazard as an axis-aligned bounding region
`{minX, minY, maxX, maxY}` in world coordinates. -/
structure CCRect where
  minX : ℚ
  minY : ℚ
  maxX : ℚ
  maxY : ℚ
deriving DecidableEq

namespace CCRect

/-- The accessor `getMinX()`. -/
def getMinX (r : CCRect) : ℚ := r.minX

/-- The accessor `getMinY()`. -/
def getMinY (r : CCRect) : ℚ := r.minY

/-- The accessor `getMaxX()`. -/
def getMaxX (r : CCRect) : ℚ := r.maxX

/-- The accessor `getMaxY()`. -/
def getMaxY (r : CCRect) : ℚ := r.maxY

end CCRect

/-- The host enumeration `GameObjectType`; the source names two of its values,
`Hazard` and `Spike`, every other value is `Other`. -/
inductive GameObjectType where
  | Hazard
  | Spike
  | Other (code : Nat)
deriving DecidableEq

/-- The fields of a host `GameObject` that the source reads. -/
structure GameObject where
  positionX : ℚ
  m_objectType : GameObjectType
  boundingBox : CCRect
deriving DecidableEq

/-- The fields of the host `PlayerObject` that the source reads. -/
structure PlayerObject where
  positionX : ℚ
  positionY : ℚ
  m_isOnGround : Bool
  m_isDead : Bool
  m_isShip : Bool
  m_isDart : Bool
deriving DecidableEq

/-- The fields of the host `PlayLayer` that the source reads.  Pointers that
the source tests against null are options: `m_objects`, its elements, and
`m_player1`. -/
structure PlayLayer where
  m_objects : Option (List (Option GameObject))
  m_player1 : Option PlayerObject
deriving DecidableEq

/-- The globals of `namespace BotState` (lines 11-20). -/
structure BotState where
  isEnabled : Bool
  enablePID : Bool
  enableRaycast : Bool
  targetY : ℚ
  prevError : ℚ
  integral : ℚ
  hazards : List CCRect
deriving DecidableEq

/-- The initial values of the globals (lines 12-19). -/
def BotState.initial : BotState :=
  { isEnabled := false, enablePID := true, enableRaycast := true,
    targetY := 150, prevError := 0, integral := 0, hazards := [] }

/-- A call on the jump button: `pushButton(Jump)` or `releaseButton(Jump)`. -/
inductive Signal where
  | push
  | release
deriving DecidableEq

/-- The three actuation routines of `BotCore`. -/
inductive Strategy where
  | shipPID
  | waveRaycast
  | cubeAStar
deriving DecidableEq

/-- What a routine leaves behind: the globals, the button calls it made, in
order, and the actuation routines that were entered, in order. -/
structure Effect where
  state : BotState
  signals : List Signal
  calls : List Strategy
deriving DecidableEq

namespace F32

/-- The integer nearest to `r`, the even one of the two when `r` lies halfway. -/
def roundHalfEven (r : ℚ) : ℤ :=
  if r - ⌊r⌋ < 1 / 2 then ⌊r⌋
  else if 1 / 2 < r - ⌊r⌋ then ⌊r⌋ + 1
  else if ⌊r⌋ % 2 = 0 then ⌊r⌋
  else ⌊r⌋ + 1

/-- The spacing of the binary32 values around `x`: `2 ^ (e - 23)` where
`2 ^ e <= |x| < 2 ^ (e + 1)`, with `e` held at `-126` below the normal range
(gradual underflow). -/
def quantum (x : ℚ) : ℚ := 2 ^ (max (Int.log 2 |x|) (-126) - 23)

/-- The binary32 value that a `float` operation with exact result `x` stores:
`x` rounded to the nearest multiple of `quantum x`, ties to even.  Results
beyond the largest finite binary32 value are outside the embedding. -/
def round (x : ℚ) : ℚ := roundHalfEven (x / quantum x) * quantum x

end F32

namespace BotCore

/-- `BotCore::reset` (lines 24-29). -/
def reset (fl : ℚ → ℚ) (groundLevel : ℚ) (st : BotState) : BotState :=
  { st with prevError := 0, integral := 0, targetY := fl (groundLevel + 75), hazards := [] }

/-- The loop of `recalculatePath` (lines 56-62): `optimalY` is the loop
variable, the list is what is left of `BotState::hazards`. -/
def pathLoop (fl : ℚ → ℚ) (pX : ℚ) : ℚ → List CCRect → ℚ
  | optimalY, [] => optimalY
  | optimalY, hazard :: rest =>
    if |fl (hazard.getMinX - pX)| < 250 then
      if optimalY ≥ hazard.getMinY ∧ optimalY ≤ hazard.getMaxY then
        pathLoop fl pX (fl (hazard.getMaxY + 40)) rest
      else pathLoop fl pX optimalY rest
    else pathLoop fl pX optimalY rest

/-- `BotCore::recalculatePath` (lines 52-64); `0.15f` is `fl 0.15`. -/
def recalculatePath (fl : ℚ → ℚ) (player : PlayerObject) (st : BotState) : BotState :=
  let pX := player.positionX
  let optimalY := pathLoop fl pX st.targetY st.hazards
  { st with targetY := fl (st.targetY + fl (fl (optimalY - st.targetY) * fl 0.15)) }

/-- The loop of `updateEnvironment` (lines 39-48): `hazards` is the vector
being filled, `push_back` appends at its end. -/
def scanLoop (fl : ℚ → ℚ) (pX : ℚ) : List CCRect → List (Option GameObject) → List CCRect
  | hazards, [] => hazards
  | hazards, none :: rest => scanLoop fl pX hazards rest
  | hazards, some obj :: rest =>
    let objX := obj.positionX
    if objX > pX ∧ objX < fl (pX + 800) then
      if obj.m_objectType = GameObjectType.Hazard ∨ obj.m_objectType = GameObjectType.Spike then
        scanLoop fl pX (hazards ++ [obj.boundingBox]) rest
      else scanLoop fl pX hazards rest
    else scanLoop fl pX hazards rest

/-- `BotCore::updateEnvironment` (lines 31-50). -/
def updateEnvironment (fl : ℚ → ℚ) (layer : Option PlayLayer) (st : BotState) : BotState :=
  match layer with
  | none => st
  | some l =>
    match l.m_objects with
    | none => st
    | some objects =>
      let st1 := { st with hazards := [] }
      match l.m_player1 with
      | none => st1
      | some player =>
        let pX := player.positionX
        let st2 := { st1 with hazards := scanLoop fl pX st1.hazards objects }
        recalculatePath fl player st2

/-- `BotCore::executeShipPID` (lines 66-81); `1.2f` is `fl 1.2` and `0.01f` is
`fl 0.01`, while `0.5f` and `6.5f` are exact. -/
def executeShipPID (fl : ℚ → ℚ) (player : PlayerObject) (st : BotState) : Effect :=
  let currentY := player.positionY
  let error := fl (st.targetY - currentY)
  let st1 := { st with integral := fl (st.integral + error) }
  let derivative := fl (error - st1.prevError)
  let st2 := { st1 with prevError := error }
  let output :=
    fl (fl (fl (fl 1.2 * error) + fl (fl 0.01 * st2.integral)) + fl (0.5 * derivative))
  if output > 6.5 then ⟨st2, [Signal.push], [Strategy.shipPID]⟩
  else ⟨st2, [Signal.release], [Strategy.shipPID]⟩

/-- `BotCore::executeWaveRaycast` (lines 83-89). -/
def executeWaveRaycast (player : PlayerObject) (st : BotState) : Effect :=
  if player.positionY < st.targetY then ⟨st, [Signal.push], [Strategy.waveRaycast]⟩
  else ⟨st, [Signal.release], [Strategy.waveRaycast]⟩

/-- The loop of `executeCubeAStar` (lines 94-103): the value of `jumpRequired`
when the loop is left, by `break` or at the end of the vector. -/
def cubeLoop (fl : ℚ → ℚ) (pX pY : ℚ) : List CCRect → Bool
  | [] => false
  | hazard :: rest =>
    if fl (hazard.getMinX - pX) < 70 ∧ fl (hazard.getMinX - pX) > 0 then
      if pY ≤ hazard.getMaxY then true
      else cubeLoop fl pX pY rest
    else cubeLoop fl pX pY rest

/-- `BotCore::executeCubeAStar` (lines 91-110). -/
def executeCubeAStar (fl : ℚ → ℚ) (player : PlayerObject) (st : BotState) : Effect :=
  let pX := player.positionX
  let pY := player.positionY
  let jumpRequired := cubeLoop fl pX pY st.hazards
  if jumpRequired && player.m_isOnGround then ⟨st, [Signal.push], [Strategy.cubeAStar]⟩
  else if player.m_isOnGround then ⟨st, [Signal.release], [Strategy.cubeAStar]⟩
  else ⟨st, [], [Strategy.cubeAStar]⟩

end BotCore

namespace PlayLayerHook

/-- `PlayLayerHook::init` (lines 174-178) after the host `PlayLayer::init`
has succeeded: `groundHeight` is `level->m_groundHeight`. -/
def init (fl : ℚ → ℚ) (groundHeight : ℚ) (st : BotState) : BotState :=
  BotCore.reset fl groundHeight st

/-- `PlayLayerHook::update` (lines 180-194), on the layer as the host
`PlayLayer::update` leaves it. -/
def update (fl : ℚ → ℚ) (self : PlayLayer) (st : BotState) : Effect :=
  if !st.isEnabled then ⟨st, [], []⟩
  else
    match self.m_player1 with
    | none => ⟨st, [], []⟩
    | some m_player1 =>
      if m_player1.m_isDead then ⟨st, [], []⟩
      else
        let st1 := BotCore.updateEnvironment fl (some self) st
        if m_player1.m_isShip && st1.enablePID then BotCore.executeShipPID fl m_player1 st1
        else if m_player1.m_isDart && st1.enableRaycast then
          BotCore.executeWaveRaycast m_player1 st1
        else BotCore.executeCubeAStar fl m_player1 st1

end PlayLayerHook

namespace Spec

/-- The spec's raise step of the planner (section 4.2): a hazard whose
horizontal distance `|minX - entityX|` is below 250 and whose vertical span
`[minY, maxY]` holds `optimalY` raises it to `maxY + 40`; any other hazard
leaves it as it is. -/
def raise (entityX : ℚ) (optimalY : ℚ) (hazard : CCRect) : ℚ :=
  if |hazard.minX - entityX| < 250 ∧ hazard.minY ≤ optimalY ∧ optimalY ≤ hazard.maxY then
    hazard.maxY + 40
  else optimalY

/-- The spec's single left-to-right pass (section 4.2), started at
`previousTarget`. -/
def optimalY (hazards : List CCRect) (entityX previousTarget : ℚ) : ℚ :=
  hazards.foldl (raise entityX) previousTarget

/-- The spec's `planTarget(hazards, entityX, previousTarget)` (section 4.2). -/
def planTarget (hazards : List CCRect) (entityX previousTarget : ℚ) : ℚ :=
  previousTarget + (optimalY hazards entityX previousTarget - previousTarget) * 0.15

/-- The spec's `senseHazards(worldEntities, entityX)` (section 4.1): the
bounding regions, in traversal order, of the entities whose X lies in the
half-open window `(entityX, entityX + 800]` and whose classification is
hazard-type. -/
def senseHazards (worldEntities : List GameObject) (entityX : ℚ) : List CCRect :=
  (worldEntities.filter fun e =>
      decide (entityX < e.positionX ∧ e.positionX ≤ entityX + 800 ∧
        (e.m_objectType = GameObjectType.Hazard ∨ e.m_objectType = GameObjectType.Spike))).map
    fun e => e.boundingBox

/-- The spec's bound `B` of a non-empty hazard sequence `hazard :: rest`: the
maximum of `maxY + 40` over its hazards. -/
def maxRaise : CCRect → List CCRect → ℚ
  | hazard, [] => hazard.maxY + 40
  | hazard, next :: rest => max (hazard.maxY + 40) (maxRaise next rest)

end Spec

namespace Scenario

/-- A player at the origin, on the ground, alive, in cube mode. -/
def groundPlayer : PlayerObject :=
  { positionX := 0, positionY := 0, m_isOnGround := true, m_isDead := false,
    m_isShip := false, m_isDart := false }

/-- An object of type `Hazard` exactly 800 ahead of `groundPlayer`. -/
def edgeSpike : GameObject :=
  { positionX := 800, m_objectType := GameObjectType.Hazard,
    boundingBox := { minX := 785, minY := 0, maxX := 815, maxY := 30 } }

/-- A live player in ship mode at height 100, off the ground. -/
def shipPlayer : PlayerObject :=
  { positionX := 0, positionY := 100, m_isOnGround := false, m_isDead := false,
    m_isShip := true, m_isDart := false }

/-- The initial globals with the master toggle switched on. -/
def enabledState : BotState := { BotState.initial with isEnabled := true }

/-- A layer whose object array is null while `shipPlayer` is present. -/
def emptyWorldLayer : PlayLayer := { m_objects := none, m_player1 := some shipPlayer }

/-- A hazard in range of a player at `x = 0` with vertical span `[0, 80]`. -/
def lowHazard : CCRect := { minX := 100, minY := 0, maxX := 130, maxY := 80 }

/-- A hazard in range of a player at `x = 0` with vertical span `[100, 130]`:
it holds the level `80 + 40` to which `lowHazard` raises. -/
def midHazard : CCRect := { minX := 150, minY := 100, maxX := 180, maxY := 130 }

/-- The globals right after `reset 0`, master toggle on, holding `hazards`. -/
def runState (hazards : List CCRect) : BotState :=
  { BotState.initial with isEnabled := true, targetY := 75, hazards := hazards }

/-- A hazard whose leading edge is 40 ahead of a player at `x = 0`, with
vertical span `[0, 60]`. -/
def nearHazard : CCRect := { minX := 40, minY := 0, maxX := 70, maxY := 60 }

/-- A layer whose object array is null while `groundPlayer` is present. -/
def staleLayer : PlayLayer := { m_objects := none, m_player1 := some groundPlayer }

/-- A hazard in range of a player at `x = 0` with vertical span `[0, 50]`, below
the target 75. -/
def belowHazard : CCRect := { minX := 100, minY := 0, maxX := 130, maxY := 50 }

/-- The binary32 value of the literal `0.1f`. -/
def tenth : ℚ := 13421773 / 134217728

/-- A player on the ground at `x = 0.1f`, alive, in cube mode. -/
def tenthPlayer : PlayerObject :=
  { positionX := tenth, positionY := 0, m_isOnGround := true, m_isDead := false,
    m_isShip := false, m_isDart := false }

/-- A hazard whose leading edge is at the binary32 value of `70.1f`, just less
than 70 ahead of `tenthPlayer` in exact terms, with vertical span `[0, 30]`. -/
def brinkHazard : CCRect := { minX := 9188147 / 131072, minY := 0, maxX := 100, maxY := 30 }

/-- An object of type `Spike` 400 ahead of `groundPlayer`. -/
def midSpike : GameObject :=
  { positionX := 400, m_objectType := GameObjectType.Spike,
    boundingBox := { minX := 385, minY := 0, maxX := 415, maxY := 30 } }

end Scenario

/-! ## The binary32 rounding -/

/-- A rational strictly within a half of an integer rounds to it. -/
theorem F32.roundHalfEven_of_near (r : ℚ) (n : ℤ) (h1 : (n : ℚ) - 1 / 2 < r)
    (h2 : r < n + 1 / 2) : F32.roundHalfEven r = n := by
  unfold F32.roundHalfEven
  rcases le_or_lt (n : ℚ) r with hle | hlt
  · have hf : ⌊r⌋ = n := Int.floor_eq_iff.2 ⟨hle, by linarith⟩
    rw [hf, if_pos (by linarith)]
  · have hf : ⌊r⌋ = n - 1 := Int.floor_eq_iff.2 ⟨by push_cast; linarith, by push_cast; linarith⟩
    rw [hf]
    have h3 : ¬ (r - ((n - 1 : ℤ) : ℚ) < 1 / 2) := by push_cast; linarith
    have h4 : 1 / 2 < r - ((n - 1 : ℤ) : ℚ) := by push_cast; linarith
    rw [if_neg h3, if_pos h4]
    ring

/-- A rational halfway between two integers rounds to the even one. -/
theorem F32.roundHalfEven_of_tie (r : ℚ) (n : ℤ) (hn : n % 2 = 0)
    (h : r = n + 1 / 2 ∨ r = n - 1 / 2) : F32.roundHalfEven r = n := by
  unfold F32.roundHalfEven
  rcases h with h | h
  · have hf : ⌊r⌋ = n := Int.floor_eq_iff.2 ⟨by linarith, by linarith⟩
    rw [hf, if_neg (by linarith), if_neg (by linarith), if_pos hn]
  · have hf : ⌊r⌋ = n - 1 := Int.floor_eq_iff.2 ⟨by push_cast; linarith, by push_cast; linarith⟩
    rw [hf]
    have h3 : ¬ (r - ((n - 1 : ℤ) : ℚ) < 1 / 2) := by push_cast; linarith
    have h4 : ¬ (1 / 2 < r - ((n - 1 : ℤ) : ℚ)) := by push_cast; linarith
    have h5 : ¬ ((n - 1) % 2 = 0) := by omega
    rw [if_neg h3, if_neg h4, if_neg h5]
    ring

/-- An integer rounds to itself. -/
theorem F32.roundHalfEven_intCast (n : ℤ) : F32.roundHalfEven (n : ℚ) = n :=
  F32.roundHalfEven_of_near _ n (by linarith) (by linarith)

/-- The rounded integer is at most a half away. -/
theorem F32.roundHalfEven_dist (r : ℚ) :
    (F32.roundHalfEven r : ℚ) - 1 / 2 ≤ r ∧ r ≤ F32.roundHalfEven r + 1 / 2 := by
  have h1 := Int.floor_le r
  have h2 := Int.lt_floor_add_one r
  unfold F32.roundHalfEven
  split_ifs with ha hb hc
  · constructor <;> linarith
  · push_cast; constructor <;> linarith
  · constructor <;> linarith
  · push_cast; constructor <;> linarith

/-- Rounding to an integer keeps the order. -/
theorem F32.roundHalfEven_mono {r s : ℚ} (h : r ≤ s) :
    F32.roundHalfEven r ≤ F32.roundHalfEven s := by
  by_contra hlt
  have hlt' : F32.roundHalfEven s + 1 ≤ F32.roundHalfEven r := by omega
  have hq : ((F32.roundHalfEven s : ℚ)) + 1 ≤ F32.roundHalfEven r := by exact_mod_cast hlt'
  have hr := (F32.roundHalfEven_dist r).1
  have hs := (F32.roundHalfEven_dist s).2
  have heq : r = s := le_antisymm h (by linarith)
  rw [heq] at hlt
  exact hlt (le_refl _)

/-- Rounding to an integer commutes with negation. -/
theorem F32.roundHalfEven_neg (r : ℚ) : F32.roundHalfEven (-r) = -F32.roundHalfEven r := by
  have h1 := Int.floor_le r
  have h2 := Int.lt_floor_add_one r
  by_cases ha : r - ⌊r⌋ < 1 / 2
  · have hn : F32.roundHalfEven r = ⌊r⌋ := by unfold F32.roundHalfEven; rw [if_pos ha]
    rw [hn]
    exact F32.roundHalfEven_of_near _ _ (by push_cast; linarith) (by push_cast; linarith)
  · by_cases hb : 1 / 2 < r - ⌊r⌋
    · have hn : F32.roundHalfEven r = ⌊r⌋ + 1 := by
        unfold F32.roundHalfEven; rw [if_neg ha, if_pos hb]
      rw [hn]
      exact F32.roundHalfEven_of_near _ _ (by push_cast; linarith) (by push_cast; linarith)
    · have hhalf : r - ⌊r⌋ = 1 / 2 := le_antisymm (not_lt.1 hb) (not_lt.1 ha)
      by_cases hc : ⌊r⌋ % 2 = 0
      · have hn : F32.roundHalfEven r = ⌊r⌋ := by
          unfold F32.roundHalfEven; rw [if_neg ha, if_neg hb, if_pos hc]
        rw [hn]
        exact F32.roundHalfEven_of_tie _ _ (by omega) (Or.inr (by push_cast; linarith))
      · have hn : F32.roundHalfEven r = ⌊r⌋ + 1 := by
          unfold F32.roundHalfEven; rw [if_neg ha, if_neg hb, if_neg hc]
        rw [hn]
        exact F32.roundHalfEven_of_tie _ _ (by omega) (Or.inl (by push_cast; linarith))

/-- The spacing is positive. -/
theorem F32.quantum_pos (x : ℚ) : 0 < F32.quantum x := by
  unfold F32.quantum; positivity

/-- The spacing around `x` with `2 ^ e <= |x| < 2 ^ (e + 1)` in the normal
range is `2 ^ (e - 23)`. -/
theorem F32.quantum_of_bounds (x : ℚ) (e : ℤ) (he : -126 ≤ e) (hlo : (2 : ℚ) ^ e ≤ |x|)
    (hhi : |x| < 2 ^ (e + 1)) : F32.quantum x = 2 ^ (e - 23) := by
  have hpos : 0 < |x| := lt_of_lt_of_le (by positivity) hlo
  have h1 : e ≤ Int.log 2 |x| :=
    (Int.zpow_le_iff_le_log (by norm_num) hpos).1 (by exact_mod_cast hlo)
  have h2 : Int.log 2 |x| < e + 1 :=
    (Int.lt_zpow_iff_log_lt (by norm_num) hpos).1 (by exact_mod_cast hhi)
  have h3 : Int.log 2 |x| = e := by omega
  unfold F32.quantum
  rw [h3, max_eq_left he]

/-- Evaluation of the rounding away from a tie: with `2 ^ e <= |x| < 2 ^ (e + 1)`
and `x / 2 ^ (e - 23)` strictly within a half of the integer `n`, the stored
value is `n * 2 ^ (e - 23)`. -/
theorem F32.round_of_near (x : ℚ) (e n : ℤ) (he : -126 ≤ e) (hlo : (2 : ℚ) ^ e ≤ |x|)
    (hhi : |x| < 2 ^ (e + 1)) (h1 : (n : ℚ) - 1 / 2 < x / 2 ^ (e - 23))
    (h2 : x / 2 ^ (e - 23) < n + 1 / 2) : F32.round x = n * 2 ^ (e - 23) := by
  unfold F32.round
  rw [F32.quantum_of_bounds x e he hlo hhi, F32.roundHalfEven_of_near _ n h1 h2]

/-- Evaluation of the rounding at a tie: the even neighbour is stored. -/
theorem F32.round_of_tie (x : ℚ) (e n : ℤ) (he : -126 ≤ e) (hlo : (2 : ℚ) ^ e ≤ |x|)
    (hhi : |x| < 2 ^ (e + 1)) (hn : n % 2 = 0)
    (h : x / 2 ^ (e - 23) = n + 1 / 2 ∨ x / 2 ^ (e - 23) = n - 1 / 2) :
    F32.round x = n * 2 ^ (e - 23) := by
  unfold F32.round
  rw [F32.quantum_of_bounds x e he hlo hhi, F32.roundHalfEven_of_tie _ n hn h]

/-- Zero is stored as zero. -/
theorem F32.round_zero : F32.round 0 = 0 := by
  simp [F32.round, F32.roundHalfEven]

/-- The rounding commutes with negation. -/
theorem F32.round_neg (x : ℚ) : F32.round (-x) = -F32.round x := by
  have hq : F32.quantum (-x) = F32.quantum x := by unfold F32.quantum; rw [abs_neg]
  unfold F32.round
  rw [hq, neg_div, F32.roundHalfEven_neg]
  push_cast
  ring

/-- A non-negative result is stored as a non-negative value. -/
theorem F32.round_nonneg {x : ℚ} (hx : 0 ≤ x) : 0 ≤ F32.round x := by
  unfold F32.round
  have hq := F32.quantum_pos x
  have h0 : F32.roundHalfEven 0 ≤ F32.roundHalfEven (x / F32.quantum x) :=
    F32.roundHalfEven_mono (div_nonneg hx hq.le)
  have h00 : F32.roundHalfEven 0 = 0 := by exact_mod_cast F32.roundHalfEven_intCast 0
  rw [h00] at h0
  have : (0 : ℚ) ≤ F32.roundHalfEven (x / F32.quantum x) := by exact_mod_cast h0
  positivity

/-- The rounding keeps the order of positive results. -/
theorem F32.round_mono_pos {x y : ℚ} (hx : 0 < x) (hxy : x ≤ y) :
    F32.round x ≤ F32.round y := by
  have hy : 0 < y := lt_of_lt_of_le hx hxy
  have hlog : Int.log 2 x ≤ Int.log 2 y := Int.log_mono_right hx hxy
  set ex := max (Int.log 2 x) (-126) with hex
  set ey := max (Int.log 2 y) (-126) with hey
  have hqx : F32.quantum x = 2 ^ (ex - 23) := by unfold F32.quantum; rw [abs_of_pos hx]
  have hqy : F32.quantum y = 2 ^ (ey - 23) := by unfold F32.quantum; rw [abs_of_pos hy]
  have hle : ex ≤ ey := max_le_max hlog (le_refl _)
  unfold F32.round
  rw [hqx, hqy]
  rcases eq_or_lt_of_le hle with heq | hlt
  · rw [heq]
    have hq : (0 : ℚ) < 2 ^ (ey - 23) := by positivity
    have hm : F32.roundHalfEven (x / 2 ^ (ey - 23)) ≤ F32.roundHalfEven (y / 2 ^ (ey - 23)) :=
      F32.roundHalfEven_mono (div_le_div_of_nonneg_right hxy hq.le)
    have hm' : (F32.roundHalfEven (x / 2 ^ (ey - 23)) : ℚ)
        ≤ F32.roundHalfEven (y / 2 ^ (ey - 23)) := by exact_mod_cast hm
    exact mul_le_mul_of_nonneg_right hm' hq.le
  · have hqx0 : (0 : ℚ) < 2 ^ (ex - 23) := by positivity
    have hqy0 : (0 : ℚ) < 2 ^ (ey - 23) := by positivity
    have hxhi : x < 2 ^ (ex + 1) := by
      have h1 : x < (2 : ℚ) ^ (Int.log 2 x + 1) := by
        exact_mod_cast Int.lt_zpow_succ_log_self (b := 2) (by norm_num) x
      have h2 : (2 : ℚ) ^ (Int.log 2 x + 1) ≤ 2 ^ (ex + 1) :=
        zpow_le_zpow_right₀ (by norm_num) (by have := le_max_left (Int.log 2 x) (-126); omega)
      exact lt_of_lt_of_le h1 h2
    have heylog : ey = Int.log 2 y := by
      have h126 : -126 ≤ ex := le_max_right _ _
      rcases max_cases (Int.log 2 y) (-126) with ⟨h, _⟩ | ⟨h, _⟩
      · exact h
      · omega
    have hylo : (2 : ℚ) ^ ey ≤ y := by
      rw [heylog]
      exact_mod_cast Int.zpow_log_le_self (b := 2) (by norm_num) hy
    have hx24 : x / 2 ^ (ex - 23) ≤ ((2 ^ 24 : ℤ) : ℚ) := by
      rw [div_le_iff₀ hqx0]
      have hp : ((2 ^ 24 : ℤ) : ℚ) * 2 ^ (ex - 23) = 2 ^ (ex + 1) := by
        have h : ((2 ^ 24 : ℤ) : ℚ) = (2 : ℚ) ^ (24 : ℤ) := by norm_num
        rw [h, ← zpow_add₀ (by norm_num)]
        congr 1
        omega
      rw [hp]
      exact hxhi.le
    have hy23 : ((2 ^ 23 : ℤ) : ℚ) ≤ y / 2 ^ (ey - 23) := by
      rw [le_div_iff₀ hqy0]
      have hp : ((2 ^ 23 : ℤ) : ℚ) * 2 ^ (ey - 23) = 2 ^ ey := by
        have h : ((2 ^ 23 : ℤ) : ℚ) = (2 : ℚ) ^ (23 : ℤ) := by norm_num
        rw [h, ← zpow_add₀ (by norm_num)]
        congr 1
        omega
      rw [hp]
      exact hylo
    have hrx : F32.roundHalfEven (x / 2 ^ (ex - 23)) ≤ 2 ^ 24 := by
      have := F32.roundHalfEven_mono hx24
      rwa [F32.roundHalfEven_intCast] at this
    have hry : 2 ^ 23 ≤ F32.roundHalfEven (y / 2 ^ (ey - 23)) := by
      have := F32.roundHalfEven_mono hy23
      rwa [F32.roundHalfEven_intCast] at this
    have hrx' : (F32.roundHalfEven (x / 2 ^ (ex - 23)) : ℚ) ≤ 2 ^ 24 := by exact_mod_cast hrx
    have hry' : (2 ^ 23 : ℚ) ≤ F32.roundHalfEven (y / 2 ^ (ey - 23)) := by exact_mod_cast hry
    have hstep : (2 : ℚ) ^ 24 * 2 ^ (ex - 23) ≤ 2 ^ 23 * 2 ^ (ey - 23) := by
      rw [← zpow_natCast (2 : ℚ) 24, ← zpow_natCast (2 : ℚ) 23, ← zpow_add₀ (by norm_num),
        ← zpow_add₀ (by norm_num)]
      exact zpow_le_zpow_right₀ (by norm_num) (by push_cast; omega)
    calc (F32.roundHalfEven (x / 2 ^ (ex - 23)) : ℚ) * 2 ^ (ex - 23)
        ≤ 2 ^ 24 * 2 ^ (ex - 23) := mul_le_mul_of_nonneg_right hrx' hqx0.le
      _ ≤ 2 ^ 23 * 2 ^ (ey - 23) := hstep
      _ ≤ F32.roundHalfEven (y / 2 ^ (ey - 23)) * 2 ^ (ey - 23) :=
          mul_le_mul_of_nonneg_right hry' hqy0.le

/-- The binary32 rounding keeps the order of exact results. -/
theorem F32.round_monotone : Monotone F32.round := by
  intro x y hxy
  rcases lt_trichotomy 0 x with hx | hx | hx
  · exact F32.round_mono_pos hx hxy
  · rw [← hx] at hxy ⊢
    rw [F32.round_zero]
    exact F32.round_nonneg hxy
  · rcases le_or_lt 0 y with hy | hy
    · have h1 : F32.round x ≤ 0 := by
        have := F32.round_nonneg (x := -x) (by linarith)
        rw [F32.round_neg] at this
        linarith
      exact le_trans h1 (F32.round_nonneg hy)
    · have := F32.round_mono_pos (x := -y) (y := -x) (by linarith) (by linarith)
      rw [F32.round_neg, F32.round_neg] at this
      linarith

/-- Every integer of magnitude below `2 ^ 24` is a binary32 value. -/
theorem F32.round_intCast (n : ℤ) (hn : |n| < 2 ^ 24) : F32.round (n : ℚ) = n := by
  rcases eq_or_ne n 0 with h0 | h0
  · rw [h0]
    exact_mod_cast F32.round_zero
  · have habs : (1 : ℚ) ≤ |(n : ℚ)| := by
      have : (1 : ℤ) ≤ |n| := Int.one_le_abs h0
      exact_mod_cast this
    have hpos : (0 : ℚ) < |(n : ℚ)| := by linarith
    have hlo : 0 ≤ Int.log 2 |(n : ℚ)| :=
      (Int.zpow_le_iff_le_log (by norm_num) hpos).1 (by simpa using habs)
    have hhi : Int.log 2 |(n : ℚ)| < 24 :=
      (Int.lt_zpow_iff_log_lt (by norm_num) hpos).1 (by
        have h24 : |(n : ℚ)| < 2 ^ 24 := by exact_mod_cast hn
        have hz : ((2 : ℕ) : ℚ) ^ (24 : ℤ) = 2 ^ 24 := by norm_num
        rw [hz]
        exact h24)
    obtain ⟨k, hk⟩ : ∃ k : ℕ, (k : ℤ) = 23 - Int.log 2 |(n : ℚ)| :=
      ⟨(23 - Int.log 2 |(n : ℚ)|).toNat, Int.toNat_of_nonneg (by omega)⟩
    have hq : F32.quantum (n : ℚ) = ((2 : ℚ) ^ k)⁻¹ := by
      unfold F32.quantum
      rw [max_eq_left (by omega), ← zpow_natCast, hk, ← zpow_neg]
      congr 1
      omega
    unfold F32.round
    rw [hq, div_inv_eq_mul]
    have hint : (n : ℚ) * 2 ^ k = ((n * 2 ^ k : ℤ) : ℚ) := by push_cast; ring
    rw [hint, F32.roundHalfEven_intCast]
    push_cast
    field_simp

/-! ## Shared lemmas -/

/-- The scan with `break` finds a hazard exactly when the vector holds one
whose computed distance ahead of the player is positive and below 70 and
whose top is not below the player. -/
theorem cubeLoop_eq_true_iff (fl : ℚ → ℚ) (pX pY : ℚ) (hazards : List CCRect) :
    BotCore.cubeLoop fl pX pY hazards = true ↔
      ∃ h ∈ hazards, 0 < fl (h.minX - pX) ∧ fl (h.minX - pX) < 70 ∧ pY ≤ h.maxY := by
  induction hazards with
  | nil => simp [BotCore.cubeLoop]
  | cons hazard rest ih =>
    simp only [BotCore.cubeLoop, CCRect.getMinX, CCRect.getMaxY, List.mem_cons,
      exists_eq_or_imp]
    by_cases hx : fl (hazard.minX - pX) < 70 ∧ fl (hazard.minX - pX) > 0
    · by_cases hy : pY ≤ hazard.maxY
      · simp [hx, hy]
      · simp only [hx, hy, and_self, if_true, if_false, ih, and_false, false_or]
    · have hn : ¬ (0 < fl (hazard.minX - pX) ∧ fl (hazard.minX - pX) < 70 ∧
          pY ≤ hazard.maxY) := fun h => hx ⟨h.2.1, h.1⟩
      simp only [hx, if_false, ih, hn, false_or]

/-- Over exact arithmetic the loop of `recalculatePath` is the spec's
left-to-right pass. -/
theorem pathLoop_eq_foldl (pX : ℚ) (hazards : List CCRect) (optimalY : ℚ) :
    BotCore.pathLoop id pX optimalY hazards = hazards.foldl (Spec.raise pX) optimalY := by
  induction hazards generalizing optimalY with
  | nil => rfl
  | cons hazard rest ih =>
    simp only [BotCore.pathLoop, List.foldl_cons, Spec.raise, CCRect.getMinX,
      CCRect.getMinY, CCRect.getMaxY, ge_iff_le, id_eq]
    by_cases hx : |hazard.minX - pX| < 250
    · by_cases hy : hazard.minY ≤ optimalY ∧ optimalY ≤ hazard.maxY
      · simp only [hx, hy, and_self, if_true, ih]
      · simp only [hx, hy, true_and, if_true, if_false, ih]
    · simp only [hx, false_and, if_false, ih]

/-! ## C1: the discrete ground controller -/

/-- Claim C1, as the code has it: on the ground `executeCubeAStar` presses jump
iff some hazard of the vector has `0 < d < 70` and `pY <= maxY`, where `d` is
the difference `minX - pX` as the code computes it, rounded by `fl` (binary32
on the machine), and releases otherwise; off the ground it makes no button
call.  The `break` of the scan does not show in the result. -/
theorem executeCubeAStar_signal (fl : ℚ → ℚ) (player : PlayerObject) (st : BotState) :
    (player.m_isOnGround = true →
      (((BotCore.executeCubeAStar fl player st).signals = [Signal.push] ↔
          ∃ h ∈ st.hazards, 0 < fl (h.minX - player.positionX) ∧
            fl (h.minX - player.positionX) < 70 ∧ player.positionY ≤ h.maxY) ∧
       ((BotCore.executeCubeAStar fl player st).signals = [Signal.release] ↔
          ¬ ∃ h ∈ st.hazards, 0 < fl (h.minX - player.positionX) ∧
            fl (h.minX - player.positionX) < 70 ∧ player.positionY ≤ h.maxY))) ∧
    (player.m_isOnGround = false →
      (BotCore.executeCubeAStar fl player st).signals = []) := by
  have key := cubeLoop_eq_true_iff fl player.positionX player.positionY st.hazards
  refine ⟨fun hg => ?_, fun hg => ?_⟩
  · rw [← key]
    cases hc : BotCore.cubeLoop fl player.positionX player.positionY st.hazards <;>
      simp [BotCore.executeCubeAStar, hc, hg]
  · simp [BotCore.executeCubeAStar, hg]

/-- The scenario of claim C1 in binary32: hazard `{minX:40, maxY:60}`, player at
`(0, 55)` on the ground: jump. -/
theorem executeCubeAStar_signal_witness :
    (BotCore.executeCubeAStar F32.round
        { positionX := 0, positionY := 55, m_isOnGround := true, m_isDead := false,
          m_isShip := false, m_isDart := false }
        { BotState.initial with hazards := [Scenario.nearHazard] }).signals
      = [Signal.push] :=
  ((executeCubeAStar_signal F32.round
      { positionX := 0, positionY := 55, m_isOnGround := true, m_isDead := false,
        m_isShip := false, m_isDart := false }
      { BotState.initial with hazards := [Scenario.nearHazard] }).1 rfl).1.2
    ⟨Scenario.nearHazard, by simp, by
      have r40 : F32.round ((40 : ℤ) : ℚ) = ((40 : ℤ) : ℚ) :=
        F32.round_intCast 40 (by norm_num)
      norm_num [Scenario.nearHazard] at r40 ⊢
      rw [r40]
      norm_num⟩

/-- The distance of `brinkHazard` ahead of `tenthPlayer`, exactly below 70, is
stored as 70 in binary32. -/
theorem F32.round_brink :
    F32.round (Scenario.brinkHazard.minX - Scenario.tenthPlayer.positionX) = 70 := by
  rw [F32.round_of_near _ 6 9175040 (by norm_num)
    (by norm_num [Scenario.brinkHazard, Scenario.tenthPlayer, Scenario.tenth, abs_of_pos])
    (by norm_num [Scenario.brinkHazard, Scenario.tenthPlayer, Scenario.tenth, abs_of_pos])
    (by norm_num [Scenario.brinkHazard, Scenario.tenthPlayer, Scenario.tenth])
    (by norm_num [Scenario.brinkHazard, Scenario.tenthPlayer, Scenario.tenth])]
  norm_num

/-- Claim C1 as stated fails in binary32: with the player on the ground at
`x = 0.1f` and a hazard whose `minX` is `70.1f`, the exact difference lies
strictly between 0 and 70 and `pY <= maxY`, yet the difference the code
computes is 70 and the button is released. -/
theorem executeCubeAStar_signal_counterexample :
    Scenario.tenthPlayer.m_isOnGround = true ∧
    (0 < Scenario.brinkHazard.minX - Scenario.tenthPlayer.positionX ∧
      Scenario.brinkHazard.minX - Scenario.tenthPlayer.positionX < 70 ∧
      Scenario.tenthPlayer.positionY ≤ Scenario.brinkHazard.maxY) ∧
    (BotCore.executeCubeAStar F32.round Scenario.tenthPlayer
        (Scenario.runState [Scenario.brinkHazard])).signals = [Signal.release] := by
  refine ⟨rfl, ?_, ?_⟩
  · norm_num [Scenario.brinkHazard, Scenario.tenthPlayer, Scenario.tenth]
  · have hr := F32.round_brink
    simp only [BotCore.executeCubeAStar, BotCore.cubeLoop, CCRect.getMinX, CCRect.getMaxY,
      Scenario.runState, hr]
    norm_num [Scenario.tenthPlayer]

/-! ## C2: the PID controller -/

/-- Claim C2, over exact arithmetic: with `error = targetY - currentY`, one call
of `executeShipPID` leaves `integral + error` in `integral` and `error` in
`prevError`, presses jump iff
`1.2*error + 0.01*(integral + error) + 0.5*(error - prevError) > 6.5` and
releases otherwise: one of the two calls is made, never both, never none. -/
theorem executeShipPID_step (player : PlayerObject) (st : BotState) :
    (BotCore.executeShipPID id player st).state.integral
        = st.integral + (st.targetY - player.positionY) ∧
    (BotCore.executeShipPID id player st).state.prevError = st.targetY - player.positionY ∧
    ((BotCore.executeShipPID id player st).signals = [Signal.push] ↔
      1.2 * (st.targetY - player.positionY)
        + 0.01 * (st.integral + (st.targetY - player.positionY))
        + 0.5 * ((st.targetY - player.positionY) - st.prevError) > 6.5) ∧
    ((BotCore.executeShipPID id player st).signals = [Signal.release] ↔
      ¬ (1.2 * (st.targetY - player.positionY)
        + 0.01 * (st.integral + (st.targetY - player.positionY))
        + 0.5 * ((st.targetY - player.positionY) - st.prevError) > 6.5)) ∧
    ((BotCore.executeShipPID id player st).signals = [Signal.push] ∨
      (BotCore.executeShipPID id player st).signals = [Signal.release]) := by
  by_cases h : 1.2 * (st.targetY - player.positionY)
        + 0.01 * (st.integral + (st.targetY - player.positionY))
        + 0.5 * ((st.targetY - player.positionY) - st.prevError) > 6.5
  · simp [BotCore.executeShipPID, h]
  · simp [BotCore.executeShipPID, h]

/-- The scenario of claim C2: target 150, currentY 150, previous error 0,
integral 0: the output is 0, the button is released, the integral stays 0. -/
theorem executeShipPID_step_witness :
    (BotCore.executeShipPID id
        { positionX := 0, positionY := 150, m_isOnGround := false, m_isDead := false,
          m_isShip := true, m_isDart := false }
        BotState.initial).signals = [Signal.release] ∧
    (BotCore.executeShipPID id
        { positionX := 0, positionY := 150, m_isOnGround := false, m_isDead := false,
          m_isShip := true, m_isDart := false }
        BotState.initial).state.integral = 0 :=
  ⟨(executeShipPID_step
      { positionX := 0, positionY := 150, m_isOnGround := false, m_isDead := false,
        m_isShip := true, m_isDart := false }
      BotState.initial).2.2.2.1.2 (by norm_num [BotState.initial]),
   (executeShipPID_step
      { positionX := 0, positionY := 150, m_isOnGround := false, m_isDead := false,
        m_isShip := true, m_isDart := false }
      BotState.initial).1.trans (by norm_num [BotState.initial])⟩

/-! ## C3: the trajectory planner -/

/-- Claim C3, over exact arithmetic: `recalculatePath` leaves in `targetY` the
value `previousTarget + (optimalY - previousTarget) * 0.15`, where `optimalY`
is the spec's single left-to-right pass over the hazard vector started at
`previousTarget`; the other globals are not part of the claim. -/
theorem recalculatePath_targetY (player : PlayerObject) (st : BotState) :
    (BotCore.recalculatePath id player st).targetY
      = st.targetY
        + (Spec.optimalY st.hazards player.positionX st.targetY - st.targetY) * 0.15 ∧
    (BotCore.recalculatePath id player st).targetY
      = Spec.planTarget st.hazards player.positionX st.targetY := by
  simp [BotCore.recalculatePath, Spec.planTarget, Spec.optimalY, pathLoop_eq_foldl]

/-! ## C4: the hazard sensor -/

/-- The scan appends to the vector the regions of the non-null objects that
lie strictly between `pX` and the computed `pX + 800` and are of type `Hazard`
or `Spike`, in traversal order. -/
theorem scanLoop_eq (fl : ℚ → ℚ) (pX : ℚ) (objects : List (Option GameObject))
    (hazards : List CCRect) :
    BotCore.scanLoop fl pX hazards objects
      = hazards ++ ((objects.filterMap id).filter fun e =>
          decide (pX < e.positionX ∧ e.positionX < fl (pX + 800) ∧
            (e.m_objectType = GameObjectType.Hazard ∨
              e.m_objectType = GameObjectType.Spike))).map fun e => e.boundingBox := by
  induction objects generalizing hazards with
  | nil => simp [BotCore.scanLoop]
  | cons o rest ih =>
    cases o with
    | none => simpa [BotCore.scanLoop] using ih hazards
    | some obj =>
      simp only [BotCore.scanLoop, gt_iff_lt, List.filterMap_cons, id_eq]
      by_cases hw : pX < obj.positionX ∧ obj.positionX < fl (pX + 800)
      · by_cases ht : obj.m_objectType = GameObjectType.Hazard ∨
            obj.m_objectType = GameObjectType.Spike
        · rw [if_pos hw, if_pos ht, ih]
          simp [List.filter_cons, hw.1, hw.2, ht]
        · rw [if_pos hw, if_neg ht, ih]
          simp [List.filter_cons, ht]
      · rw [if_neg hw, ih]
        have hn : ¬ (pX < obj.positionX ∧ obj.positionX < fl (pX + 800) ∧
            (obj.m_objectType = GameObjectType.Hazard ∨
              obj.m_objectType = GameObjectType.Spike)) := fun h => hw ⟨h.1, h.2.1⟩
        simp [List.filter_cons, hn]

/-- The planner does not touch the hazard vector. -/
theorem recalculatePath_hazards (fl : ℚ → ℚ) (player : PlayerObject) (st : BotState) :
    (BotCore.recalculatePath fl player st).hazards = st.hazards := rfl

/-- Claim C4, as the code has it: with the object array and the player present,
`updateEnvironment` leaves in `hazards` the bounding regions, in traversal
order, of the non-null objects of type `Hazard` or `Spike` whose X lies in the
open window `(pX, s)`, both ends excluded, where `s` is the sum `pX + 800` as
the code computes it, rounded by `fl` (binary32 on the machine); the vector
held before the call has no part in the result. -/
theorem updateEnvironment_hazards (fl : ℚ → ℚ) (objects : List (Option GameObject))
    (player : PlayerObject) (st : BotState) :
    (BotCore.updateEnvironment fl
        (some { m_objects := some objects, m_player1 := some player }) st).hazards
      = ((objects.filterMap id).filter fun e =>
          decide (player.positionX < e.positionX ∧
            e.positionX < fl (player.positionX + 800) ∧
            (e.m_objectType = GameObjectType.Hazard ∨
              e.m_objectType = GameObjectType.Spike))).map fun e => e.boundingBox := by
  simp only [BotCore.updateEnvironment, recalculatePath_hazards, scanLoop_eq, List.nil_append]

/-- The sum `0 + 800` is stored as 800 in binary32. -/
theorem F32.round_window : F32.round (Scenario.groundPlayer.positionX + 800) = 800 := by
  have h := F32.round_intCast 800 (by norm_num)
  norm_num [Scenario.groundPlayer] at h ⊢
  exact h

/-- Claim C4 as stated fails at the right end of the window: in binary32 a
hazard at `X = pX + 800` (here `pX = 0`) is in the spec's half-open window but
is not sensed. -/
theorem updateEnvironment_hazards_counterexample :
    (BotCore.updateEnvironment F32.round
        (some { m_objects := some [some Scenario.edgeSpike],
                m_player1 := some Scenario.groundPlayer })
        BotState.initial).hazards = [] ∧
    Spec.senseHazards [Scenario.edgeSpike] Scenario.groundPlayer.positionX
      = [Scenario.edgeSpike.boundingBox] ∧
    Scenario.edgeSpike.positionX = Scenario.groundPlayer.positionX + 800 ∧
    Scenario.edgeSpike.m_objectType = GameObjectType.Hazard := by
  refine ⟨?_, ?_, ?_, rfl⟩
  · have hr := F32.round_window
    simp only [BotCore.updateEnvironment, BotCore.recalculatePath, BotCore.scanLoop, hr]
    norm_num [Scenario.edgeSpike, Scenario.groundPlayer]
  · simp [Spec.senseHazards, List.filter_cons, Scenario.edgeSpike, Scenario.groundPlayer]
  · norm_num [Scenario.edgeSpike, Scenario.groundPlayer]

/-! ## C5: a tick without the object array -/

/-- With the object array null `updateEnvironment` returns at once. -/
theorem updateEnvironment_objects_absent (fl : ℚ → ℚ) (self : PlayLayer) (st : BotState)
    (hobj : self.m_objects = none) : BotCore.updateEnvironment fl (some self) st = st := by
  simp [BotCore.updateEnvironment, hobj]

/-- The toggles are not written by `updateEnvironment`. -/
theorem updateEnvironment_toggles (fl : ℚ → ℚ) (layer : Option PlayLayer) (st : BotState) :
    (BotCore.updateEnvironment fl layer st).isEnabled = st.isEnabled ∧
    (BotCore.updateEnvironment fl layer st).enablePID = st.enablePID ∧
    (BotCore.updateEnvironment fl layer st).enableRaycast = st.enableRaycast := by
  rcases layer with _ | ⟨⟨_ | objects, _ | player⟩⟩ <;>
    exact ⟨rfl, rfl, rfl⟩

/-- An active tick is `updateEnvironment` followed by the dispatched routine. -/
theorem update_of_active (fl : ℚ → ℚ) (self : PlayLayer) (st : BotState)
    (player : PlayerObject) (hen : st.isEnabled = true) (hp : self.m_player1 = some player)
    (halive : player.m_isDead = false) :
    PlayLayerHook.update fl self st =
      (if player.m_isShip = true ∧ st.enablePID = true then
         BotCore.executeShipPID fl player (BotCore.updateEnvironment fl (some self) st)
       else if player.m_isDart = true ∧ st.enableRaycast = true then
         BotCore.executeWaveRaycast player (BotCore.updateEnvironment fl (some self) st)
       else BotCore.executeCubeAStar fl player (BotCore.updateEnvironment fl (some self) st)) := by
  have hpid := (updateEnvironment_toggles fl (some self) st).2.1
  have hray := (updateEnvironment_toggles fl (some self) st).2.2
  simp only [PlayLayerHook.update, hen, hp, halive, hpid, hray, Bool.and_eq_true]
  simp

/-- Claim C5, as the code has it: in a tick with the master toggle on, the player
present and alive and the object array null, sensing and planning are skipped,
so `targetY`, the hazard vector and the toggles stay as they were, and the mode
dispatch still runs on the held globals; `prevError` and `integral` stay as
they were unless the dispatched routine is the PID controller.  This holds
whatever the rounding `fl` of the arithmetic. -/
theorem update_objects_absent (fl : ℚ → ℚ) (self : PlayLayer) (st : BotState)
    (player : PlayerObject)
    (hen : st.isEnabled = true) (hp : self.m_player1 = some player)
    (halive : player.m_isDead = false) (hobj : self.m_objects = none) :
    (PlayLayerHook.update fl self st).state.targetY = st.targetY ∧
    (PlayLayerHook.update fl self st).state.hazards = st.hazards ∧
    (¬ (player.m_isShip = true ∧ st.enablePID = true) →
      (PlayLayerHook.update fl self st).state = st) ∧
    PlayLayerHook.update fl self st =
      (if player.m_isShip = true ∧ st.enablePID = true then
         BotCore.executeShipPID fl player st
       else if player.m_isDart = true ∧ st.enableRaycast = true then
         BotCore.executeWaveRaycast player st
       else BotCore.executeCubeAStar fl player st) := by
  have hu : PlayLayerHook.update fl self st =
      (if player.m_isShip = true ∧ st.enablePID = true then
         BotCore.executeShipPID fl player st
       else if player.m_isDart = true ∧ st.enableRaycast = true then
         BotCore.executeWaveRaycast player st
       else BotCore.executeCubeAStar fl player st) := by
    rw [update_of_active fl self st player hen hp halive,
      updateEnvironment_objects_absent fl self st hobj]
  refine ⟨?_, ?_, ?_, hu⟩
  · rw [hu]
    simp only [BotCore.executeShipPID, BotCore.executeWaveRaycast, BotCore.executeCubeAStar]
    split_ifs <;> rfl
  · rw [hu]
    simp only [BotCore.executeShipPID, BotCore.executeWaveRaycast, BotCore.executeCubeAStar]
    split_ifs <;> rfl
  · intro hn
    rw [hu, if_neg hn]
    simp only [BotCore.executeWaveRaycast, BotCore.executeCubeAStar]
    split_ifs <;> rfl

/-- A tick the amended claim C5 speaks of, in binary32: `shipPlayer` alive,
master toggle on, object array null. -/
theorem update_objects_absent_witness :
    (PlayLayerHook.update F32.round Scenario.emptyWorldLayer
        Scenario.enabledState).state.targetY = Scenario.enabledState.targetY ∧
    (PlayLayerHook.update F32.round Scenario.emptyWorldLayer
        Scenario.enabledState).state.hazards = Scenario.enabledState.hazards :=
  ⟨(update_objects_absent F32.round Scenario.emptyWorldLayer Scenario.enabledState
      Scenario.shipPlayer rfl rfl rfl rfl).1,
   (update_objects_absent F32.round Scenario.emptyWorldLayer Scenario.enabledState
      Scenario.shipPlayer rfl rfl rfl rfl).2.1⟩

/-- The PID step of `shipPlayer` (height 100) on the initial globals (target
150) in binary32: error, integral and derivative are stored as 50, the output
as 85.5, and jump is pressed. -/
theorem executeShipPID_shipPlayer :
    BotCore.executeShipPID F32.round Scenario.shipPlayer Scenario.enabledState
      = ⟨{ Scenario.enabledState with prevError := 50, integral := 50 }, [Signal.push],
          [Strategy.shipPID]⟩ := by
  have h50 : F32.round 50 = 50 := by
    have h := F32.round_intCast 50 (by norm_num)
    norm_num at h
    exact h
  have h25 : F32.round 25 = 25 := by
    have h := F32.round_intCast 25 (by norm_num)
    norm_num at h
    exact h
  have hkp : F32.round 1.2 = 5033165 / 4194304 :=
    (F32.round_of_near _ 0 10066330 (by norm_num) (by norm_num [abs_of_pos])
      (by norm_num [abs_of_pos]) (by norm_num) (by norm_num)).trans (by norm_num)
  have hki : F32.round 0.01 = 5368709 / 536870912 :=
    (F32.round_of_near _ (-7) 10737418 (by norm_num) (by norm_num [abs_of_pos])
      (by norm_num [abs_of_pos]) (by norm_num) (by norm_num)).trans (by norm_num)
  have hp : F32.round (5033165 / 4194304 * 50) = 15728641 / 262144 :=
    (F32.round_of_near _ 5 15728641 (by norm_num) (by norm_num [abs_of_pos])
      (by norm_num [abs_of_pos]) (by norm_num) (by norm_num)).trans (by norm_num)
  have hi : F32.round (5368709 / 536870912 * 50) = 1 / 2 :=
    (F32.round_of_near _ (-2) 16777216 (by norm_num) (by norm_num [abs_of_pos])
      (by norm_num [abs_of_pos]) (by norm_num) (by norm_num)).trans (by norm_num)
  have hs : F32.round (15728641 / 262144 + 1 / 2) = 15859713 / 262144 :=
    (F32.round_of_near _ 5 15859713 (by norm_num) (by norm_num [abs_of_pos])
      (by norm_num [abs_of_pos]) (by norm_num) (by norm_num)).trans (by norm_num)
  have ho : F32.round (15859713 / 262144 + 25) = 171 / 2 :=
    (F32.round_of_tie _ 6 11206656 (by norm_num) (by norm_num [abs_of_pos])
      (by norm_num [abs_of_pos]) (by norm_num) (Or.inl (by norm_num))).trans (by norm_num)
  have e1 : Scenario.enabledState.targetY - Scenario.shipPlayer.positionY = 50 := by
    norm_num [Scenario.enabledState, Scenario.shipPlayer, BotState.initial]
  have e2 : Scenario.enabledState.integral + 50 = 50 := by
    norm_num [Scenario.enabledState, BotState.initial]
  have e3 : (50 : ℚ) - Scenario.enabledState.prevError = 50 := by
    norm_num [Scenario.enabledState, BotState.initial]
  have e4 : (0.5 : ℚ) * 50 = 25 := by norm_num
  simp only [BotCore.executeShipPID, e1, h50, e2, e3, e4, h25, hkp, hki, hp, hi, hs, ho]
  norm_num

/-- Claim C5 as stated fails: in binary32, with the master toggle on,
`shipPlayer` alive at height 100 and the object array null, the tick presses
jump and moves `prevError` and `integral` from 0 to 50. -/
theorem update_objects_absent_counterexample :
    Scenario.enabledState.isEnabled = true ∧
    Scenario.emptyWorldLayer.m_player1 = some Scenario.shipPlayer ∧
    Scenario.shipPlayer.m_isDead = false ∧
    Scenario.emptyWorldLayer.m_objects = none ∧
    Scenario.enabledState.prevError = 0 ∧ Scenario.enabledState.integral = 0 ∧
    (PlayLayerHook.update F32.round Scenario.emptyWorldLayer Scenario.enabledState).signals
      = [Signal.push] ∧
    (PlayLayerHook.update F32.round Scenario.emptyWorldLayer
        Scenario.enabledState).state.prevError = 50 ∧
    (PlayLayerHook.update F32.round Scenario.emptyWorldLayer
        Scenario.enabledState).state.integral = 50 := by
  have hu : PlayLayerHook.update F32.round Scenario.emptyWorldLayer Scenario.enabledState
      = BotCore.executeShipPID F32.round Scenario.shipPlayer Scenario.enabledState := by
    rw [update_of_active F32.round Scenario.emptyWorldLayer Scenario.enabledState
        Scenario.shipPlayer rfl rfl rfl,
      updateEnvironment_objects_absent F32.round Scenario.emptyWorldLayer
        Scenario.enabledState rfl]
    rfl
  rw [hu, executeShipPID_shipPlayer]
  exact ⟨rfl, rfl, rfl, rfl, rfl, rfl, rfl, rfl, rfl⟩

/-! ## C6: an inactive tick -/

/-- Claim C6: a tick with the master toggle off, or the player absent, or the
player dead, makes no button call, enters no actuation routine, and leaves
every global, the controller state and the hazard vector among them, as it
was, whatever the rounding `fl` of the arithmetic. -/
theorem update_inactive (fl : ℚ → ℚ) (self : PlayLayer) (st : BotState)
    (h : self.m_player1 = none ∨ st.isEnabled = false ∨
      ∃ player, self.m_player1 = some player ∧ player.m_isDead = true) :
    (PlayLayerHook.update fl self st).signals = [] ∧
    (PlayLayerHook.update fl self st).calls = [] ∧
    (PlayLayerHook.update fl self st).state = st := by
  rcases h with h | h | ⟨player, hp, hd⟩
  · cases he : st.isEnabled <;> simp [PlayLayerHook.update, h, he]
  · simp [PlayLayerHook.update, h]
  · cases he : st.isEnabled <;> simp [PlayLayerHook.update, hp, hd, he]

/-- A tick claim C6 speaks of, in binary32: master toggle on, object array
present, player absent. -/
theorem update_inactive_witness :
    (PlayLayerHook.update F32.round
        { m_objects := some [some Scenario.edgeSpike], m_player1 := none }
        Scenario.enabledState).signals = [] ∧
    (PlayLayerHook.update F32.round
        { m_objects := some [some Scenario.edgeSpike], m_player1 := none }
        Scenario.enabledState).state = Scenario.enabledState :=
  ⟨(update_inactive F32.round
      { m_objects := some [some Scenario.edgeSpike], m_player1 := none }
      Scenario.enabledState (Or.inl rfl)).1,
   (update_inactive F32.round
      { m_objects := some [some Scenario.edgeSpike], m_player1 := none }
      Scenario.enabledState (Or.inl rfl)).2.2⟩

/-! ## C7: the mode dispatch -/

/-- Every actuation routine is entered as itself and makes at most one button
call. -/
theorem actuators_calls_signals (fl : ℚ → ℚ) (player : PlayerObject) (st : BotState) :
    ((BotCore.executeShipPID fl player st).calls = [Strategy.shipPID] ∧
      (BotCore.executeShipPID fl player st).signals.length ≤ 1) ∧
    ((BotCore.executeWaveRaycast player st).calls = [Strategy.waveRaycast] ∧
      (BotCore.executeWaveRaycast player st).signals.length ≤ 1) ∧
    ((BotCore.executeCubeAStar fl player st).calls = [Strategy.cubeAStar] ∧
      (BotCore.executeCubeAStar fl player st).signals.length ≤ 1) := by
  refine ⟨?_, ?_, ?_⟩
  · simp only [BotCore.executeShipPID]
    split_ifs <;> simp
  · simp only [BotCore.executeWaveRaycast]
    split_ifs <;> simp
  · simp only [BotCore.executeCubeAStar]
    split_ifs <;> simp

/-- Claim C7: in an active tick (master toggle on, player present and alive)
one actuation routine is entered, once, on the globals that
`updateEnvironment` leaves: the PID controller iff ship mode and `enablePID`;
failing that the raycast controller iff dart mode and `enableRaycast`; failing
both the discrete ground controller.  The tick makes at most one button
call.  This holds whatever the rounding `fl` of the arithmetic. -/
theorem update_dispatch (fl : ℚ → ℚ) (self : PlayLayer) (st : BotState)
    (player : PlayerObject)
    (hen : st.isEnabled = true) (hp : self.m_player1 = some player)
    (halive : player.m_isDead = false) :
    ((PlayLayerHook.update fl self st).calls = [Strategy.shipPID] ↔
      (player.m_isShip = true ∧ st.enablePID = true)) ∧
    ((PlayLayerHook.update fl self st).calls = [Strategy.waveRaycast] ↔
      (¬ (player.m_isShip = true ∧ st.enablePID = true) ∧
        (player.m_isDart = true ∧ st.enableRaycast = true))) ∧
    ((PlayLayerHook.update fl self st).calls = [Strategy.cubeAStar] ↔
      (¬ (player.m_isShip = true ∧ st.enablePID = true) ∧
        ¬ (player.m_isDart = true ∧ st.enableRaycast = true))) ∧
    ((PlayLayerHook.update fl self st).calls = [Strategy.shipPID] ∨
      (PlayLayerHook.update fl self st).calls = [Strategy.waveRaycast] ∨
      (PlayLayerHook.update fl self st).calls = [Strategy.cubeAStar]) ∧
    PlayLayerHook.update fl self st =
      (if player.m_isShip = true ∧ st.enablePID = true then
         BotCore.executeShipPID fl player (BotCore.updateEnvironment fl (some self) st)
       else if player.m_isDart = true ∧ st.enableRaycast = true then
         BotCore.executeWaveRaycast player (BotCore.updateEnvironment fl (some self) st)
       else
         BotCore.executeCubeAStar fl player (BotCore.updateEnvironment fl (some self) st)) ∧
    (PlayLayerHook.update fl self st).signals.length ≤ 1 := by
  have hu := update_of_active fl self st player hen hp halive
  have ha := actuators_calls_signals fl player (BotCore.updateEnvironment fl (some self) st)
  by_cases h1 : player.m_isShip = true ∧ st.enablePID = true
  · rw [hu, if_pos h1]
    simp [ha.1.1, ha.1.2, h1]
  · by_cases h2 : player.m_isDart = true ∧ st.enableRaycast = true
    · rw [hu, if_neg h1, if_pos h2]
      simp [ha.2.1.1, ha.2.1.2, h1, h2]
    · rw [hu, if_neg h1, if_neg h2]
      simp [ha.2.2.1, ha.2.2.2, h1, h2]

/-- An active tick of claim C7, in binary32, with both mode flags set and both
toggles on: ship mode wins, the PID controller alone is entered. -/
theorem update_dispatch_witness :
    (PlayLayerHook.update F32.round
        { m_objects := some [],
          m_player1 := some { positionX := 0, positionY := 100, m_isOnGround := false,
                              m_isDead := false, m_isShip := true, m_isDart := true } }
        Scenario.enabledState).calls = [Strategy.shipPID] :=
  (update_dispatch F32.round
      { m_objects := some [],
        m_player1 := some { positionX := 0, positionY := 100, m_isOnGround := false,
                            m_isDead := false, m_isShip := true, m_isDart := true } }
      Scenario.enabledState
      { positionX := 0, positionY := 100, m_isOnGround := false,
        m_isDead := false, m_isShip := true, m_isDart := true }
      rfl rfl rfl).1.2 ⟨rfl, rfl⟩

/-! ## C8: the raycast controller -/

/-- Claim C8: `executeWaveRaycast` presses jump iff `currentY < targetY` and
releases otherwise, so it releases at `currentY = targetY`; it changes no
global, and two states with the same `targetY`, whatever their `prevError`
and `integral`, give the same button call.  The routine does no arithmetic,
only a comparison of two stored values. -/
theorem executeWaveRaycast_signal (player : PlayerObject) (st st' : BotState)
    (ht : st'.targetY = st.targetY) :
    ((BotCore.executeWaveRaycast player st).signals = [Signal.push] ↔
      player.positionY < st.targetY) ∧
    ((BotCore.executeWaveRaycast player st).signals = [Signal.release] ↔
      ¬ player.positionY < st.targetY) ∧
    (player.positionY = st.targetY →
      (BotCore.executeWaveRaycast player st).signals = [Signal.release]) ∧
    (BotCore.executeWaveRaycast player st').signals
      = (BotCore.executeWaveRaycast player st).signals ∧
    (BotCore.executeWaveRaycast player st).state = st := by
  simp only [BotCore.executeWaveRaycast, ht]
  by_cases h : player.positionY < st.targetY
  · simp [h, ne_of_lt h]
  · simp [h]

/-- Two states of claim C8 that differ in `prevError` and `integral` only,
with the player exactly at the target height: both release. -/
theorem executeWaveRaycast_signal_witness :
    (BotCore.executeWaveRaycast
        { positionX := 0, positionY := 150, m_isOnGround := false, m_isDead := false,
          m_isShip := false, m_isDart := true }
        { BotState.initial with prevError := 7, integral := 900 }).signals
      = [Signal.release] :=
  ((executeWaveRaycast_signal
      { positionX := 0, positionY := 150, m_isOnGround := false, m_isDead := false,
        m_isShip := false, m_isDart := true }
      BotState.initial { BotState.initial with prevError := 7, integral := 900 } rfl).2.2.2.1).trans
    ((executeWaveRaycast_signal
      { positionX := 0, positionY := 150, m_isOnGround := false, m_isDead := false,
        m_isShip := false, m_isDart := true }
      BotState.initial BotState.initial rfl).2.2.1 rfl)

/-! ## C9: the run-start reset -/

/-- Claim C9, as the code has it: whatever the globals held, `reset g` leaves in
`targetY` the sum `g + 75` as the code computes it, rounded by `fl` (binary32
on the machine, so `g + 75` itself whenever that is a binary32 value),
`integral = 0`, `prevError = 0` and an empty hazard vector, so two resets
with the same ground level agree on these four, and the run-start hook
`init` is this reset; the three toggles are not touched. -/
theorem reset_state (fl : ℚ → ℚ) (g : ℚ) (st st' : BotState) :
    (BotCore.reset fl g st).targetY = fl (g + 75) ∧
    (BotCore.reset fl g st).integral = 0 ∧
    (BotCore.reset fl g st).prevError = 0 ∧
    (BotCore.reset fl g st).hazards = [] ∧
    ((BotCore.reset fl g st).targetY = (BotCore.reset fl g st').targetY ∧
      (BotCore.reset fl g st).integral = (BotCore.reset fl g st').integral ∧
      (BotCore.reset fl g st).prevError = (BotCore.reset fl g st').prevError ∧
      (BotCore.reset fl g st).hazards = (BotCore.reset fl g st').hazards) ∧
    PlayLayerHook.init fl g st = BotCore.reset fl g st ∧
    ((BotCore.reset fl g st).isEnabled = st.isEnabled ∧
      (BotCore.reset fl g st).enablePID = st.enablePID ∧
      (BotCore.reset fl g st).enableRaycast = st.enableRaycast) ∧
    (fl (g + 75) = g + 75 → (BotCore.reset fl g st).targetY = g + 75) :=
  ⟨rfl, rfl, rfl, rfl, ⟨rfl, rfl, rfl, rfl⟩, rfl, ⟨rfl, rfl, rfl⟩, fun h => h⟩

/-- The scenario of claim C9 in binary32: ground level 0 gives target 75,
integral 0, previous error 0. -/
theorem reset_state_witness :
    (PlayLayerHook.init F32.round 0 BotState.initial).targetY = 75 ∧
    (PlayLayerHook.init F32.round 0 BotState.initial).integral = 0 ∧
    (PlayLayerHook.init F32.round 0 BotState.initial).prevError = 0 :=
  ⟨((reset_state F32.round 0 BotState.initial BotState.initial).2.2.2.2.2.2.2 (by
      have h := F32.round_intCast 75 (by norm_num)
      norm_num at h ⊢
      exact h)).trans (by norm_num),
   (reset_state F32.round 0 BotState.initial BotState.initial).2.1,
   (reset_state F32.round 0 BotState.initial BotState.initial).2.2.1⟩

/-- Claim C9 as stated fails in binary32: at ground level `2 ^ 24 = 16777216`
the sum `g + 75 = 16777291` lies halfway between two binary32 values and
`reset` stores 16777292. -/
theorem reset_state_counterexample :
    (BotCore.reset F32.round 16777216 BotState.initial).targetY = 16777292 ∧
    (16777216 : ℚ) + 75 = 16777291 ∧
    F32.round 16777216 = 16777216 := by
  refine ⟨?_, by norm_num, ?_⟩
  · have h : F32.round (16777216 + 75) = 16777292 :=
      (F32.round_of_tie _ 24 8388646 (by norm_num) (by norm_num [abs_of_pos])
        (by norm_num [abs_of_pos]) (by norm_num) (Or.inr (by norm_num))).trans (by norm_num)
    exact h
  · exact (F32.round_of_near _ 24 8388608 (by norm_num) (by norm_num [abs_of_pos])
      (by norm_num [abs_of_pos]) (by norm_num) (by norm_num)).trans (by norm_num)

/-! ## C10: the planner and the order of the hazards -/

/-- A hazard in range whose span holds the level raises it to `maxY + 40`
(the spec's raise, exact). -/
theorem raise_of_hit (pX z : ℚ) (h : CCRect)
    (hc : |h.minX - pX| < 250 ∧ h.minY ≤ z ∧ z ≤ h.maxY) :
    Spec.raise pX z h = h.maxY + 40 := if_pos hc

/-- Any other hazard leaves the level as it is (the spec's raise, exact). -/
theorem raise_of_miss (pX z : ℚ) (h : CCRect)
    (hc : ¬ (|h.minX - pX| < 250 ∧ h.minY ≤ z ∧ z ≤ h.maxY)) :
    Spec.raise pX z h = z := if_neg hc

/-- The loop of `recalculatePath` takes the hazards one at a time. -/
theorem pathLoop_cons (fl : ℚ → ℚ) (pX z : ℚ) (h : CCRect) (rest : List CCRect) :
    BotCore.pathLoop fl pX z (h :: rest)
      = BotCore.pathLoop fl pX (BotCore.pathLoop fl pX z [h]) rest := by
  simp only [BotCore.pathLoop]
  split_ifs <;> rfl

/-- The step of the loop on any other hazard leaves the level. -/
theorem pathLoop_single_of_miss (fl : ℚ → ℚ) (pX z : ℚ) (h : CCRect)
    (hc : ¬ (|fl (h.minX - pX)| < 250 ∧ h.minY ≤ z ∧ z ≤ h.maxY)) :
    BotCore.pathLoop fl pX z [h] = z := by
  simp only [BotCore.pathLoop, CCRect.getMinX, CCRect.getMinY, CCRect.getMaxY, ge_iff_le]
  by_cases hx : |fl (h.minX - pX)| < 250
  · rw [if_pos hx, if_neg fun hy => hc ⟨hx, hy⟩]
  · rw [if_neg hx]

/-- A raise never lowers the level. -/
theorem raise_ge (pX z : ℚ) (h : CCRect) : z ≤ Spec.raise pX z h := by
  unfold Spec.raise
  split_ifs with hc
  · linarith [hc.2.2]
  · exact le_refl z

/-- A hit lifts the level strictly. -/
theorem raise_gt_of_hit (pX z : ℚ) (h : CCRect)
    (hc : |h.minX - pX| < 250 ∧ h.minY ≤ z ∧ z ≤ h.maxY) : z < Spec.raise pX z h := by
  rw [raise_of_hit pX z h hc]
  linarith [hc.2.2]

/-- The pass never ends below the level it starts from. -/
theorem foldl_raise_ge (pX : ℚ) (hazards : List CCRect) (z : ℚ) :
    z ≤ hazards.foldl (Spec.raise pX) z := by
  induction hazards generalizing z with
  | nil => exact le_refl z
  | cons h rest ih => exact le_trans (raise_ge pX z h) (ih (Spec.raise pX z h))

/-- A hazard that the code finds in range is in range exactly: a monotone
rounding that stores 250 and -250 as they are cannot bring a difference of
magnitude 250 or more below 250. -/
theorem abs_lt_of_abs_round_lt (fl : ℚ → ℚ) (hmono : Monotone fl) (h250 : fl 250 = 250)
    (hneg : fl (-250) = -250) (d : ℚ) (h : |fl d| < 250) : |d| < 250 := by
  rw [abs_lt] at h ⊢
  constructor
  · by_contra hle
    have := hmono (not_lt.1 hle)
    rw [hneg] at this
    linarith [h.1]
  · by_contra hle
    have := hmono (not_lt.1 hle)
    rw [h250] at this
    linarith [h.2]

/-- A pass of the code in which no hazard in range, exactly, holds the start
level in its span ends at the start level. -/
theorem pathLoop_of_no_hit (fl : ℚ → ℚ) (hmono : Monotone fl) (h250 : fl 250 = 250)
    (hneg : fl (-250) = -250) (pX : ℚ) (hazards : List CCRect) (z : ℚ)
    (hno : ∀ h ∈ hazards, ¬ (|h.minX - pX| < 250 ∧ h.minY ≤ z ∧ z ≤ h.maxY)) :
    BotCore.pathLoop fl pX z hazards = z := by
  induction hazards with
  | nil => rfl
  | cons h rest ih =>
    have hmiss : ¬ (|fl (h.minX - pX)| < 250 ∧ h.minY ≤ z ∧ z ≤ h.maxY) := fun hc =>
      hno h (List.mem_cons_self h rest)
        ⟨abs_lt_of_abs_round_lt fl hmono h250 hneg _ hc.1, hc.2⟩
    rw [pathLoop_cons, pathLoop_single_of_miss fl pX z h hmiss]
    exact ih fun x hx => hno x (List.mem_cons_of_mem h hx)

/-- The smoothing step with nothing to smooth writes the target back, when
zero and the held target are stored as they are. -/
theorem recalculatePath_of_optimal_eq (fl : ℚ → ℚ) (h0 : fl 0 = 0) (player : PlayerObject)
    (st : BotState) (ht : fl st.targetY = st.targetY)
    (hopt : BotCore.pathLoop fl player.positionX st.targetY st.hazards = st.targetY) :
    BotCore.recalculatePath fl player st = st := by
  simp only [BotCore.recalculatePath, hopt, sub_self, h0, zero_mul, add_zero, ht]

/-! ## C11: the planner at equilibrium -/

/-- Claim C11: when no hazard in range (`|minX - pX| < 250`) has the held target
inside its vertical span `[minY, maxY]`, the pass ends at the held target, the
new target is the held target, and planning any number of times over leaves
the globals as they are.  This holds for every rounding `fl` that keeps the
order of exact results and stores 0, 250, -250 and the held target as they
are: exact arithmetic (`id`) trivially, and binary32 (`F32.round`, see
`F32.round_monotone`) on every state the code can hold. -/
theorem recalculatePath_equilibrium (fl : ℚ → ℚ) (hmono : Monotone fl) (h0 : fl 0 = 0)
    (h250 : fl 250 = 250) (hneg : fl (-250) = -250) (player : PlayerObject) (st : BotState)
    (ht : fl st.targetY = st.targetY)
    (hno : ∀ h ∈ st.hazards,
      ¬ (|h.minX - player.positionX| < 250 ∧ h.minY ≤ st.targetY ∧ st.targetY ≤ h.maxY)) :
    BotCore.pathLoop fl player.positionX st.targetY st.hazards = st.targetY ∧
    (BotCore.recalculatePath fl player st).targetY = st.targetY ∧
    ∀ n : ℕ, (BotCore.recalculatePath fl player)^[n] st = st := by
  have hopt : BotCore.pathLoop fl player.positionX st.targetY st.hazards = st.targetY :=
    pathLoop_of_no_hit fl hmono h250 hneg player.positionX st.hazards st.targetY hno
  have hfix := recalculatePath_of_optimal_eq fl h0 player st ht hopt
  refine ⟨hopt, by rw [hfix], fun n => ?_⟩
  exact Function.iterate_fixed hfix n

/-- The values 75 and 250 are binary32 values. -/
theorem F32.round_target_range : F32.round 75 = 75 ∧ F32.round 250 = 250 := by
  have h75 := F32.round_intCast 75 (by norm_num)
  have h250 := F32.round_intCast 250 (by norm_num)
  norm_num at h75 h250
  exact ⟨h75, h250⟩

/-- The scenario of claim C11, in binary32 and in exact arithmetic: hazard
`{minX:100, minY:0, maxY:50}`, player at `x = 0`, held target 75: the target
stays 75. -/
theorem recalculatePath_equilibrium_witness :
    (BotCore.recalculatePath F32.round Scenario.groundPlayer
        (Scenario.runState [Scenario.belowHazard])).targetY = 75 ∧
    (BotCore.recalculatePath id Scenario.groundPlayer
        (Scenario.runState [Scenario.belowHazard])).targetY = 75 :=
  ⟨(recalculatePath_equilibrium F32.round F32.round_monotone F32.round_zero
      F32.round_target_range.2
      ((F32.round_neg 250).trans (congrArg Neg.neg F32.round_target_range.2))
      Scenario.groundPlayer (Scenario.runState [Scenario.belowHazard])
      F32.round_target_range.1
      (by
        intro h hh
        simp only [Scenario.runState, List.mem_singleton] at hh
        subst hh
        norm_num [Scenario.runState, Scenario.belowHazard])).2.1,
   (recalculatePath_equilibrium id monotone_id rfl rfl rfl
      Scenario.groundPlayer (Scenario.runState [Scenario.belowHazard]) rfl
      (by
        intro h hh
        simp only [Scenario.runState, List.mem_singleton] at hh
        subst hh
        norm_num [Scenario.runState, Scenario.belowHazard])).2.1⟩

/-! ## C12: the hazard vector is rebuilt in a tick -/

/-- With the object array and the player present, `updateEnvironment` runs the
planner on the globals whose hazard vector is the sensed one, whatever vector
was held. -/
theorem updateEnvironment_eq (fl : ℚ → ℚ) (objects : List (Option GameObject))
    (player : PlayerObject) (st : BotState) :
    BotCore.updateEnvironment fl
        (some { m_objects := some objects, m_player1 := some player }) st
      = BotCore.recalculatePath fl player
          { st with hazards := ((objects.filterMap id).filter fun e =>
              decide (player.positionX < e.positionX ∧
                e.positionX < fl (player.positionX + 800) ∧
                (e.m_objectType = GameObjectType.Hazard ∨
                  e.m_objectType = GameObjectType.Spike))).map fun e => e.boundingBox } := by
  simp only [BotCore.updateEnvironment, scanLoop_eq, List.nil_append]

/-- The vector held before the call has no part in what `updateEnvironment`
leaves when the object array is present. -/
theorem updateEnvironment_held (fl : ℚ → ℚ) (objects : List (Option GameObject))
    (player : Option PlayerObject) (st : BotState) (held : List CCRect) :
    BotCore.updateEnvironment fl (some { m_objects := some objects, m_player1 := player })
        { st with hazards := held }
      = BotCore.updateEnvironment fl
          (some { m_objects := some objects, m_player1 := player }) st := by
  cases player <;> rfl

/-- No actuation routine writes the hazard vector. -/
theorem actuators_hazards (fl : ℚ → ℚ) (player : PlayerObject) (st : BotState) :
    (BotCore.executeShipPID fl player st).state.hazards = st.hazards ∧
    (BotCore.executeWaveRaycast player st).state.hazards = st.hazards ∧
    (BotCore.executeCubeAStar fl player st).state.hazards = st.hazards := by
  refine ⟨?_, ?_, ?_⟩
  · simp only [BotCore.executeShipPID]
    split_ifs <;> rfl
  · simp only [BotCore.executeWaveRaycast]
    split_ifs <;> rfl
  · simp only [BotCore.executeCubeAStar]
    split_ifs <;> rfl

/-- Claim C12, as the code has it: in an active tick (master toggle on, player
present and alive) whose object array is present, the planner and the
actuation routine read the hazard vector sensed in this tick from the objects
(type `Hazard` or `Spike`, X strictly between `pX` and the sum `pX + 800` as
the code computes it, rounded by `fl`), and the vector held before the tick
has no part in the outcome: a tick started with another held vector ends with
the same globals, the same button calls and the same routine entered. -/
theorem update_hazards_fresh (fl : ℚ → ℚ) (objects : List (Option GameObject))
    (player : PlayerObject) (st : BotState) (held : List CCRect)
    (hen : st.isEnabled = true) (halive : player.m_isDead = false) :
    (PlayLayerHook.update fl
        { m_objects := some objects, m_player1 := some player } st).state.hazards
      = (((objects.filterMap id).filter fun e =>
          decide (player.positionX < e.positionX ∧
            e.positionX < fl (player.positionX + 800) ∧
            (e.m_objectType = GameObjectType.Hazard ∨
              e.m_objectType = GameObjectType.Spike))).map fun e => e.boundingBox) ∧
    BotCore.updateEnvironment fl
        (some { m_objects := some objects, m_player1 := some player }) st
      = BotCore.recalculatePath fl player
          { st with hazards := ((objects.filterMap id).filter fun e =>
              decide (player.positionX < e.positionX ∧
                e.positionX < fl (player.positionX + 800) ∧
                (e.m_objectType = GameObjectType.Hazard ∨
                  e.m_objectType = GameObjectType.Spike))).map fun e => e.boundingBox } ∧
    PlayLayerHook.update fl { m_objects := some objects, m_player1 := some player }
        { st with hazards := held }
      = PlayLayerHook.update fl { m_objects := some objects, m_player1 := some player } st := by
  have henv := updateEnvironment_eq fl objects player st
  have hu := update_of_active fl { m_objects := some objects, m_player1 := some player } st
    player hen rfl halive
  have hu' := update_of_active fl { m_objects := some objects, m_player1 := some player }
    { st with hazards := held } player hen rfl halive
  refine ⟨?_, henv, ?_⟩
  · have ha := actuators_hazards fl player
      (BotCore.updateEnvironment fl
        (some { m_objects := some objects, m_player1 := some player }) st)
    rw [hu]
    split_ifs
    · rw [ha.1, henv, recalculatePath_hazards]
    · rw [ha.2.1, henv, recalculatePath_hazards]
    · rw [ha.2.2, henv, recalculatePath_hazards]
  · rw [hu, hu', updateEnvironment_held fl objects (some player) st held]

/-- An active tick of the amended claim C12, in binary32: `midSpike`, 400
ahead of `groundPlayer`, is sensed, its region is the whole hazard vector
after the tick, and the stale held vector `[nearHazard]` changes nothing. -/
theorem update_hazards_fresh_witness :
    (PlayLayerHook.update F32.round
        { m_objects := some [some Scenario.midSpike], m_player1 := some Scenario.groundPlayer }
        { Scenario.enabledState with hazards := [Scenario.nearHazard] }).state.hazards
      = [Scenario.midSpike.boundingBox] ∧
    PlayLayerHook.update F32.round
        { m_objects := some [some Scenario.midSpike], m_player1 := some Scenario.groundPlayer }
        { Scenario.enabledState with hazards := [Scenario.nearHazard] }
      = PlayLayerHook.update F32.round
          { m_objects := some [some Scenario.midSpike],
            m_player1 := some Scenario.groundPlayer }
          Scenario.enabledState :=
  ⟨((update_hazards_fresh F32.round [some Scenario.midSpike] Scenario.groundPlayer
      { Scenario.enabledState with hazards := [Scenario.nearHazard] } [] rfl rfl).1).trans (by
      have hr := F32.round_window
      simp only [List.filterMap_cons, id_eq, List.filterMap_nil, hr]
      norm_num [List.filter_cons, Scenario.midSpike, Scenario.groundPlayer]),
   (update_hazards_fresh F32.round [some Scenario.midSpike] Scenario.groundPlayer
      Scenario.enabledState [Scenario.nearHazard] rfl rfl).2.2⟩

/-- The distance of `nearHazard` ahead of `groundPlayer` is stored as 40 in
binary32. -/
theorem F32.round_near :
    F32.round (Scenario.nearHazard.minX - Scenario.groundPlayer.positionX) = 40 := by
  have h := F32.round_intCast 40 (by norm_num)
  norm_num [Scenario.nearHazard, Scenario.groundPlayer] at h ⊢
  exact h

/-- Claim C12 as stated fails in an active tick whose object array is null:
`updateEnvironment` returns before `hazards.clear()`, so the ground controller
reads the held vector.  In binary32, two ticks that differ in the held vector
only, empty against `[nearHazard]`, release in one and press jump in the
other, and each ends with the vector it started with. -/
theorem update_hazards_fresh_counterexample :
    Scenario.enabledState.isEnabled = true ∧
    Scenario.staleLayer.m_player1 = some Scenario.groundPlayer ∧
    Scenario.groundPlayer.m_isDead = false ∧
    (PlayLayerHook.update F32.round Scenario.staleLayer Scenario.enabledState).signals
      = [Signal.release] ∧
    (PlayLayerHook.update F32.round Scenario.staleLayer
        { Scenario.enabledState with hazards := [Scenario.nearHazard] }).signals
      = [Signal.push] ∧
    (PlayLayerHook.update F32.round Scenario.staleLayer
        Scenario.enabledState).state.hazards = [] ∧
    (PlayLayerHook.update F32.round Scenario.staleLayer
        { Scenario.enabledState with hazards := [Scenario.nearHazard] }).state.hazards
      = [Scenario.nearHazard] := by
  have hu : ∀ st : BotState, st.isEnabled = true →
      PlayLayerHook.update F32.round Scenario.staleLayer st
        = BotCore.executeCubeAStar F32.round Scenario.groundPlayer st := by
    intro st hen
    rw [update_of_active F32.round Scenario.staleLayer st Scenario.groundPlayer hen rfl rfl,
      updateEnvironment_objects_absent F32.round Scenario.staleLayer st rfl]
    rfl
  have hr := F32.round_near
  refine ⟨rfl, rfl, rfl, ?_, ?_, ?_, ?_⟩
  · rw [hu _ rfl]
    simp [BotCore.executeCubeAStar, BotCore.cubeLoop, Scenario.enabledState,
      Scenario.groundPlayer, BotState.initial]
  · rw [hu _ rfl]
    simp only [BotCore.executeCubeAStar, BotCore.cubeLoop, CCRect.getMinX, CCRect.getMaxY, hr]
    norm_num [Scenario.groundPlayer, Scenario.nearHazard]
  · rw [hu _ rfl]
    simp [BotCore.executeCubeAStar, BotCore.cubeLoop, Scenario.enabledState,
      Scenario.groundPlayer, BotState.initial]
  · rw [hu _ rfl]
    simp only [BotCore.executeCubeAStar, BotCore.cubeLoop, CCRect.getMinX, CCRect.getMaxY, hr]
    norm_num [Scenario.groundPlayer, Scenario.nearHazard]

/-! ## C13: the PID integral -/

/-- Over exact arithmetic one PID step adds the error to the integral and
leaves the target. -/
theorem executeShipPID_integral (player : PlayerObject) (st : BotState) :
    (BotCore.executeShipPID id player st).state.integral
        = st.integral + (st.targetY - player.positionY) ∧
    (BotCore.executeShipPID id player st).state.targetY = st.targetY := by
  simp only [BotCore.executeShipPID]
  split_ifs <;> exact ⟨rfl, rfl⟩

/-- Over exact arithmetic consecutive PID steps leave the target and add up the
errors. -/
theorem foldl_executeShipPID (players : List PlayerObject) (st : BotState) :
    (players.foldl (fun s p => (BotCore.executeShipPID id p s).state) st).targetY
      = st.targetY ∧
    (players.foldl (fun s p => (BotCore.executeShipPID id p s).state) st).integral
      = st.integral + (players.map fun p => st.targetY - p.positionY).sum := by
  induction players generalizing st with
  | nil => simp
  | cons p rest ih =>
    have hstep := executeShipPID_integral p st
    have hrest := ih (BotCore.executeShipPID id p st).state
    simp only [List.foldl_cons, List.map_cons, List.sum_cons]
    rw [hrest.1, hrest.2, hstep.1, hstep.2]
    exact ⟨rfl, by ring⟩

/-- Claim C13, over exact arithmetic: over `N` consecutive PID steps (one per
player snapshot of the list) each with `error = targetY - currentY > 0`, the
integral ends at its initial value plus the sum of the `N` errors, without any
clamp, and every single step leaves it strictly above what it found. -/
theorem executeShipPID_integral_run (players : List PlayerObject) (st : BotState)
    (hpos : ∀ p ∈ players, 0 < st.targetY - p.positionY) :
    (players.foldl (fun s p => (BotCore.executeShipPID id p s).state) st).integral
      = st.integral + (players.map fun p => st.targetY - p.positionY).sum ∧
    (∀ (done : List PlayerObject) (p : PlayerObject) (todo : List PlayerObject),
      players = done ++ p :: todo →
        (done.foldl (fun s q => (BotCore.executeShipPID id q s).state) st).integral
          < ((done ++ [p]).foldl
              (fun s q => (BotCore.executeShipPID id q s).state) st).integral) ∧
    (players ≠ [] →
      st.integral
        < (players.foldl (fun s p => (BotCore.executeShipPID id p s).state) st).integral) := by
  refine ⟨(foldl_executeShipPID players st).2, ?_, ?_⟩
  · intro done p todo hsplit
    have hp : 0 < st.targetY - p.positionY := hpos p (by rw [hsplit]; simp)
    rw [List.foldl_append, List.foldl_cons, List.foldl_nil,
      (executeShipPID_integral p _).1, (foldl_executeShipPID done st).1]
    linarith
  · intro hne
    rw [(foldl_executeShipPID players st).2]
    have hsum : 0 < (players.map fun p => st.targetY - p.positionY).sum := by
      apply List.sum_pos
      · intro x hx
        obtain ⟨p, hp, rfl⟩ := List.mem_map.1 hx
        exact hpos p hp
      · simpa using hne
    linarith

/-- Two PID steps of claim C13 from the initial globals (target 150) at heights
100 and 120: errors 50 and 30, the integral goes from 0 to 80. -/
theorem executeShipPID_integral_run_witness :
    ([Scenario.shipPlayer, { Scenario.shipPlayer with positionY := 120 }].foldl
        (fun s p => (BotCore.executeShipPID id p s).state) BotState.initial).integral = 80 :=
  ((executeShipPID_integral_run
      [Scenario.shipPlayer, { Scenario.shipPlayer with positionY := 120 }] BotState.initial
      (by
        intro p hp
        simp only [List.mem_cons, List.mem_singleton, List.not_mem_nil, or_false] at hp
        rcases hp with rfl | rfl <;> norm_num [BotState.initial, Scenario.shipPlayer])).1).trans
    (by norm_num [BotState.initial, Scenario.shipPlayer])

/-! ## C14: soundness of the sensor -/

/-- Claim C14: every region that `updateEnvironment` leaves in the hazard vector
is the bounding region of an object of the array of type `Hazard` or `Spike`
whose X satisfies `pX < X <= pX + 800`, in exact terms; an empty array, or one
without such an object, leaves the vector empty.  This holds for every
rounding `fl` that keeps the order of exact results and stores the X of each
object as it is: exact arithmetic (`id`) trivially, and binary32
(`F32.round`, see `F32.round_monotone`) on every array the code can hold. -/
theorem updateEnvironment_sound (fl : ℚ → ℚ) (hmono : Monotone fl)
    (objects : List (Option GameObject))
    (hrep : ∀ e, some e ∈ objects → fl e.positionX = e.positionX)
    (player : PlayerObject) (st : BotState) :
    (∀ r ∈ (BotCore.updateEnvironment fl
          (some { m_objects := some objects, m_player1 := some player }) st).hazards,
      ∃ e, some e ∈ objects ∧ e.boundingBox = r ∧
        (e.m_objectType = GameObjectType.Hazard ∨ e.m_objectType = GameObjectType.Spike) ∧
        player.positionX < e.positionX ∧ e.positionX ≤ player.positionX + 800) ∧
    (objects = [] →
      (BotCore.updateEnvironment fl
        (some { m_objects := some objects, m_player1 := some player }) st).hazards = []) ∧
    ((∀ e, some e ∈ objects →
        ¬ ((e.m_objectType = GameObjectType.Hazard ∨ e.m_objectType = GameObjectType.Spike) ∧
          player.positionX < e.positionX ∧ e.positionX ≤ player.positionX + 800)) →
      (BotCore.updateEnvironment fl
        (some { m_objects := some objects, m_player1 := some player }) st).hazards = []) := by
  have hwin : ∀ e, some e ∈ objects → e.positionX < fl (player.positionX + 800) →
      e.positionX ≤ player.positionX + 800 := by
    intro e he hlt
    by_contra hgt
    have := hmono (not_le.1 hgt).le
    rw [hrep e he] at this
    linarith
  rw [updateEnvironment_eq, recalculatePath_hazards]
  refine ⟨?_, ?_, ?_⟩
  · intro r hr
    obtain ⟨e, he, rfl⟩ := List.mem_map.1 hr
    obtain ⟨hmem, hq⟩ := List.mem_filter.1 he
    have hq' := of_decide_eq_true hq
    have hin : some e ∈ objects := by simpa using hmem
    exact ⟨e, hin, rfl, hq'.2.2, hq'.1, hwin e hin hq'.2.1⟩
  · intro hnil
    simp [hnil]
  · intro hnone
    rw [List.map_eq_nil_iff, List.filter_eq_nil_iff]
    intro e he hq
    have hq' := of_decide_eq_true hq
    have hin : some e ∈ objects := by simpa using he
    exact hnone e hin ⟨hq'.2.2, hq'.1, hwin e hin hq'.2.1⟩

/-- An array of claim C14, in binary32, that holds a null entry and one object
of type `Hazard` 900 ahead of the player, beyond the window: the vector is
left empty though the array is not, and the vector held before is gone. -/
theorem updateEnvironment_sound_witness :
    (BotCore.updateEnvironment F32.round
        (some { m_objects := some [none, some { Scenario.edgeSpike with positionX := 900 }],
                m_player1 := some Scenario.groundPlayer })
        (Scenario.runState [Scenario.nearHazard])).hazards = [] :=
  (updateEnvironment_sound F32.round F32.round_monotone
      [none, some { Scenario.edgeSpike with positionX := 900 }]
      (by
        intro e he
        simp only [List.mem_cons, List.mem_singleton, List.not_mem_nil, or_false,
          Option.some.injEq, false_or, reduceCtorEq] at he
        subst he
        have h := F32.round_intCast 900 (by norm_num)
        norm_num at h ⊢
        exact h)
      Scenario.groundPlayer (Scenario.runState [Scenario.nearHazard])).2.2
    (by
      intro e he
      simp only [List.mem_cons, List.mem_singleton, List.not_mem_nil, or_false,
        Option.some.injEq, false_or, reduceCtorEq] at he
      subst he
      norm_num [Scenario.edgeSpike, Scenario.groundPlayer])

/-! ## C15: who writes the controller state -/

/-- Claim C15: the planner writes `targetY` only; the PID controller writes
`prevError` and `integral` only; the raycast and the ground controller write
nothing; none of the four writes the hazard vector (nor a toggle).  This
holds whatever the rounding `fl` of the arithmetic. -/
theorem controller_state_frame (fl : ℚ → ℚ) (player : PlayerObject) (st : BotState) :
    ((BotCore.recalculatePath fl player st).prevError = st.prevError ∧
      (BotCore.recalculatePath fl player st).integral = st.integral ∧
      (BotCore.recalculatePath fl player st).hazards = st.hazards ∧
      BotCore.recalculatePath fl player st
        = { st with targetY := (BotCore.recalculatePath fl player st).targetY }) ∧
    ((BotCore.executeShipPID fl player st).state.targetY = st.targetY ∧
      (BotCore.executeShipPID fl player st).state.hazards = st.hazards ∧
      (BotCore.executeShipPID fl player st).state
        = { st with prevError := (BotCore.executeShipPID fl player st).state.prevError,
                    integral := (BotCore.executeShipPID fl player st).state.integral }) ∧
    (BotCore.executeWaveRaycast player st).state = st ∧
    (BotCore.executeCubeAStar fl player st).state = st := by
  refine ⟨⟨rfl, rfl, rfl, rfl⟩, ?_, ?_, ?_⟩
  · simp only [BotCore.executeShipPID]
    split_ifs <;> exact ⟨rfl, rfl, rfl⟩
  · simp only [BotCore.executeWaveRaycast]
    split_ifs <;> rfl
  · simp only [BotCore.executeCubeAStar]
    split_ifs <;> rfl

/-! ## Shared lemmas on the growth of the target -/

/-- A pass of the spec either ends where it started or some hazard of the vector was hit
at the level the pass had reached before it. -/
theorem foldl_raise_eq_or_hit (pX : ℚ) (hazards : List CCRect) (z : ℚ) :
    hazards.foldl (Spec.raise pX) z = z ∨
      ∃ before h after, hazards = before ++ h :: after ∧
        |h.minX - pX| < 250 ∧ h.minY ≤ before.foldl (Spec.raise pX) z ∧
        before.foldl (Spec.raise pX) z ≤ h.maxY := by
  induction hazards with
  | nil => exact Or.inl rfl
  | cons a rest ih =>
    by_cases hc : |a.minX - pX| < 250 ∧ a.minY ≤ z ∧ z ≤ a.maxY
    · exact Or.inr ⟨[], a, rest, rfl, hc⟩
    · rcases ih with heq | ⟨before, h, after, hsplit, hhit⟩
      · left
        rw [List.foldl_cons, raise_of_miss pX z a hc, heq]
      · right
        refine ⟨a :: before, h, after, by rw [hsplit]; rfl, ?_⟩
        rw [List.foldl_cons, raise_of_miss pX z a hc]
        exact hhit

/-- A pass of the spec in which some hazard was hit ends strictly above its start. -/
theorem foldl_raise_gt_of_hit (pX : ℚ) (before after : List CCRect) (h : CCRect) (z : ℚ)
    (hhit : |h.minX - pX| < 250 ∧ h.minY ≤ before.foldl (Spec.raise pX) z ∧
      before.foldl (Spec.raise pX) z ≤ h.maxY) :
    z < (before ++ h :: after).foldl (Spec.raise pX) z := by
  rw [List.foldl_append, List.foldl_cons]
  calc z ≤ before.foldl (Spec.raise pX) z := foldl_raise_ge pX before z
    _ < Spec.raise pX (before.foldl (Spec.raise pX) z) h := raise_gt_of_hit pX _ h hhit
    _ ≤ after.foldl (Spec.raise pX) (Spec.raise pX (before.foldl (Spec.raise pX) z) h) :=
        foldl_raise_ge pX after _

/-- Over exact arithmetic the new target is not below the held one. -/
theorem targetY_le_recalculatePath (player : PlayerObject) (st : BotState) :
    st.targetY ≤ (BotCore.recalculatePath id player st).targetY := by
  have hopt : st.targetY ≤ BotCore.pathLoop id player.positionX st.targetY st.hazards := by
    rw [pathLoop_eq_foldl]
    exact foldl_raise_ge player.positionX st.hazards st.targetY
  have hstep : (BotCore.recalculatePath id player st).targetY
      = st.targetY
        + (BotCore.pathLoop id player.positionX st.targetY st.hazards - st.targetY) * 0.15 := rfl
  rw [hstep]
  have h15 : (0 : ℚ) ≤ 0.15 := by norm_num
  nlinarith [mul_nonneg (sub_nonneg.2 hopt) h15]

/-- Over exact arithmetic the target that `updateEnvironment` leaves is not
below the held one. -/
theorem updateEnvironment_targetY_ge (layer : Option PlayLayer) (st : BotState) :
    st.targetY ≤ (BotCore.updateEnvironment id layer st).targetY := by
  rcases layer with _ | ⟨⟨_ | objects, _ | player⟩⟩
  · exact le_refl _
  · exact le_refl _
  · exact le_refl _
  · exact le_refl _
  · exact targetY_le_recalculatePath player
      { st with hazards := BotCore.scanLoop id player.positionX [] objects }

/-- No actuation routine writes the target. -/
theorem actuators_targetY (fl : ℚ → ℚ) (player : PlayerObject) (st : BotState) :
    (BotCore.executeShipPID fl player st).state.targetY = st.targetY ∧
    (BotCore.executeWaveRaycast player st).state.targetY = st.targetY ∧
    (BotCore.executeCubeAStar fl player st).state.targetY = st.targetY := by
  refine ⟨?_, ?_, ?_⟩
  · simp only [BotCore.executeShipPID]
    split_ifs <;> rfl
  · simp only [BotCore.executeWaveRaycast]
    split_ifs <;> rfl
  · simp only [BotCore.executeCubeAStar]
    split_ifs <;> rfl

/-- Over exact arithmetic a tick never lowers the target. -/
theorem update_targetY_ge (self : PlayLayer) (st : BotState) :
    st.targetY ≤ (PlayLayerHook.update id self st).state.targetY := by
  cases hen : st.isEnabled with
  | false => simp [PlayLayerHook.update, hen]
  | true =>
    cases hp : self.m_player1 with
    | none => simp [PlayLayerHook.update, hen, hp]
    | some player =>
      cases hd : player.m_isDead with
      | true => simp [PlayLayerHook.update, hen, hp, hd]
      | false =>
        have ha := actuators_targetY id player (BotCore.updateEnvironment id (some self) st)
        have hge := updateEnvironment_targetY_ge (some self) st
        rw [update_of_active id self st player hen hp hd]
        split_ifs
        · rw [ha.1]; exact hge
        · rw [ha.2.1]; exact hge
        · rw [ha.2.2]; exact hge

/-- Over exact arithmetic a run of ticks never lowers the target. -/
theorem foldl_update_targetY_ge (layers : List PlayLayer) (st : BotState) :
    st.targetY
      ≤ (layers.foldl (fun s l => (PlayLayerHook.update id l s).state) st).targetY := by
  induction layers generalizing st with
  | nil => exact le_refl _
  | cons l rest ih =>
    exact le_trans (update_targetY_ge l st) (ih (PlayLayerHook.update id l st).state)

/-! ## C16: the target never decreases -/

/-- Claim C16, over exact arithmetic: the pass of the planner ends at or above
the held target, so the
new target is at or above the held one, and strictly above exactly when some
hazard of the vector was hit (in range, its span holding the level reached
before it); over any run of ticks, from any globals and so from those a reset
leaves, `targetY` never decreases from one tick to a later one. -/
theorem recalculatePath_monotone (player : PlayerObject) (st : BotState)
    (layers : List PlayLayer) (g : ℚ) :
    st.targetY ≤ BotCore.pathLoop id player.positionX st.targetY st.hazards ∧
    st.targetY ≤ (BotCore.recalculatePath id player st).targetY ∧
    (st.targetY < (BotCore.recalculatePath id player st).targetY ↔
      ∃ before h after, st.hazards = before ++ h :: after ∧
        |h.minX - player.positionX| < 250 ∧
        h.minY ≤ BotCore.pathLoop id player.positionX st.targetY before ∧
        BotCore.pathLoop id player.positionX st.targetY before ≤ h.maxY) ∧
    (∀ earlier later, layers = earlier ++ later →
      (earlier.foldl (fun s l => (PlayLayerHook.update id l s).state) st).targetY
        ≤ (layers.foldl (fun s l => (PlayLayerHook.update id l s).state) st).targetY) ∧
    (∀ earlier later, layers = earlier ++ later →
      (earlier.foldl (fun s l => (PlayLayerHook.update id l s).state) (BotCore.reset id g st)).targetY
        ≤ (layers.foldl (fun s l => (PlayLayerHook.update id l s).state)
            (BotCore.reset id g st)).targetY) := by
  have hrun : ∀ (s : BotState) (earlier later : List PlayLayer), layers = earlier ++ later →
      (earlier.foldl (fun s l => (PlayLayerHook.update id l s).state) s).targetY
        ≤ (layers.foldl (fun s l => (PlayLayerHook.update id l s).state) s).targetY := by
    intro s earlier later hsplit
    rw [hsplit, List.foldl_append]
    exact foldl_update_targetY_ge later _
  have hopt : st.targetY ≤ BotCore.pathLoop id player.positionX st.targetY st.hazards := by
    rw [pathLoop_eq_foldl]
    exact foldl_raise_ge player.positionX st.hazards st.targetY
  have hstep : (BotCore.recalculatePath id player st).targetY
      = st.targetY
        + (BotCore.pathLoop id player.positionX st.targetY st.hazards - st.targetY) * 0.15 := rfl
  have h15 : (0 : ℚ) < 0.15 := by norm_num
  refine ⟨hopt, targetY_le_recalculatePath player st, ?_, hrun st, hrun (BotCore.reset id g st)⟩
  constructor
  · intro hlt
    rw [hstep] at hlt
    have hgt : st.targetY < BotCore.pathLoop id player.positionX st.targetY st.hazards := by
      by_contra hle
      have heq : BotCore.pathLoop id player.positionX st.targetY st.hazards = st.targetY :=
        le_antisymm (not_lt.1 hle) hopt
      rw [heq] at hlt
      simp at hlt
    rcases foldl_raise_eq_or_hit player.positionX st.hazards st.targetY with heq | hhit
    · rw [pathLoop_eq_foldl, heq] at hgt
      exact absurd hgt (lt_irrefl _)
    · obtain ⟨before, h, after, hsplit, hc⟩ := hhit
      exact ⟨before, h, after, hsplit, by rw [pathLoop_eq_foldl]; exact hc⟩
  · rintro ⟨before, h, after, hsplit, hc⟩
    rw [pathLoop_eq_foldl] at hc
    have hgt := foldl_raise_gt_of_hit player.positionX before after h st.targetY hc
    rw [← hsplit, ← pathLoop_eq_foldl] at hgt
    rw [hstep]
    nlinarith [mul_pos (sub_pos.2 hgt) h15]

/-! ## C17: the bound on the planned target -/

/-- Every `maxY + 40` of a non-empty vector is at most its `maxRaise`. -/
theorem maxRaise_ge (h : CCRect) (rest : List CCRect) :
    ∀ x ∈ h :: rest, x.maxY + 40 ≤ Spec.maxRaise h rest := by
  induction rest generalizing h with
  | nil =>
    intro x hx
    rw [List.mem_singleton] at hx
    rw [hx]
    exact le_refl _
  | cons a rest ih =>
    intro x hx
    rcases List.mem_cons.1 hx with rfl | hx'
    · exact le_max_left _ _
    · exact le_trans (ih a x hx') (le_max_right _ _)

/-- The `maxRaise` of a non-empty vector is the `maxY + 40` of one of its
hazards. -/
theorem maxRaise_mem (h : CCRect) (rest : List CCRect) :
    ∃ x ∈ h :: rest, x.maxY + 40 = Spec.maxRaise h rest := by
  induction rest generalizing h with
  | nil => exact ⟨h, List.mem_singleton.2 rfl, rfl⟩
  | cons a rest ih =>
    rcases le_total (Spec.maxRaise a rest) (h.maxY + 40) with hle | hle
    · exact ⟨h, List.mem_cons_self _ _, (max_eq_left hle).symm⟩
    · obtain ⟨x, hx, hxe⟩ := ih a
      exact ⟨x, List.mem_cons_of_mem _ hx, hxe.trans (max_eq_right hle).symm⟩

/-- A pass of the spec ends at or below any level that bounds its start and every
`maxY + 40` of the vector. -/
theorem foldl_raise_le (pX : ℚ) (hazards : List CCRect) (z M : ℚ) (hz : z ≤ M)
    (hM : ∀ h ∈ hazards, h.maxY + 40 ≤ M) : hazards.foldl (Spec.raise pX) z ≤ M := by
  induction hazards generalizing z with
  | nil => exact hz
  | cons a rest ih =>
    rw [List.foldl_cons]
    apply ih _ _ fun x hx => hM x (List.mem_cons_of_mem a hx)
    unfold Spec.raise
    split_ifs
    · exact hM a (List.mem_cons_self a rest)
    · exact hz

/-- Claim C17, over exact arithmetic: for a non-empty hazard vector `h :: rest`,
with `B` the maximum
of `maxY + 40` over it, the pass ends at most at `max previousTarget B`; the
new target lies between the held target and the end of the pass, strictly
inside when the two differ; and a held target at most `B` gives a new target
at most `B`. -/
theorem recalculatePath_bound (player : PlayerObject) (st : BotState) (h : CCRect)
    (rest : List CCRect) (hh : st.hazards = h :: rest) :
    ((∀ x ∈ st.hazards, x.maxY + 40 ≤ Spec.maxRaise h rest) ∧
      ∃ x ∈ st.hazards, x.maxY + 40 = Spec.maxRaise h rest) ∧
    BotCore.pathLoop id player.positionX st.targetY st.hazards
      ≤ max st.targetY (Spec.maxRaise h rest) ∧
    (st.targetY ≤ (BotCore.recalculatePath id player st).targetY ∧
      (BotCore.recalculatePath id player st).targetY
        ≤ BotCore.pathLoop id player.positionX st.targetY st.hazards) ∧
    (st.targetY ≠ BotCore.pathLoop id player.positionX st.targetY st.hazards →
      st.targetY < (BotCore.recalculatePath id player st).targetY ∧
      (BotCore.recalculatePath id player st).targetY
        < BotCore.pathLoop id player.positionX st.targetY st.hazards) ∧
    (st.targetY ≤ Spec.maxRaise h rest →
      (BotCore.recalculatePath id player st).targetY ≤ Spec.maxRaise h rest) := by
  have hB : ∀ x ∈ st.hazards, x.maxY + 40 ≤ Spec.maxRaise h rest := by
    rw [hh]
    exact maxRaise_ge h rest
  have hopt : st.targetY ≤ BotCore.pathLoop id player.positionX st.targetY st.hazards := by
    rw [pathLoop_eq_foldl]
    exact foldl_raise_ge player.positionX st.hazards st.targetY
  have hstep : (BotCore.recalculatePath id player st).targetY
      = st.targetY
        + (BotCore.pathLoop id player.positionX st.targetY st.hazards - st.targetY) * 0.15 := rfl
  have hle : (BotCore.recalculatePath id player st).targetY
      ≤ BotCore.pathLoop id player.positionX st.targetY st.hazards := by
    rw [hstep]
    have h15 : (0.15 : ℚ) ≤ 1 := by norm_num
    nlinarith [mul_le_mul_of_nonneg_left h15 (sub_nonneg.2 hopt)]
  refine ⟨⟨hB, by rw [hh]; exact maxRaise_mem h rest⟩, ?_,
    ⟨targetY_le_recalculatePath player st, hle⟩, ?_, ?_⟩
  · rw [pathLoop_eq_foldl]
    exact foldl_raise_le player.positionX st.hazards st.targetY _ (le_max_left _ _)
      fun x hx => le_trans (hB x hx) (le_max_right _ _)
  · intro hne
    have hlt : st.targetY < BotCore.pathLoop id player.positionX st.targetY st.hazards :=
      lt_of_le_of_ne hopt hne
    have h15 : (0 : ℚ) < 0.15 := by norm_num
    have h85 : (0 : ℚ) < 1 - 0.15 := by norm_num
    rw [hstep]
    constructor
    · nlinarith [mul_pos (sub_pos.2 hlt) h15]
    · nlinarith [mul_pos (sub_pos.2 hlt) h85]
  · intro hprev
    refine le_trans hle ?_
    rw [pathLoop_eq_foldl]
    exact foldl_raise_le player.positionX st.hazards st.targetY _ hprev hB

/-- An input of claim C17, over exact arithmetic: target 75 under `[lowHazard, midHazard]`, where
`B = max (80 + 40) (130 + 40) = 170`: the new target is at most 170. -/
theorem recalculatePath_bound_witness :
    (BotCore.recalculatePath id Scenario.groundPlayer
        (Scenario.runState [Scenario.lowHazard, Scenario.midHazard])).targetY ≤ 170 :=
  ((recalculatePath_bound Scenario.groundPlayer
      (Scenario.runState [Scenario.lowHazard, Scenario.midHazard])
      Scenario.lowHazard [Scenario.midHazard] rfl).2.2.2.2
    (by norm_num [Scenario.runState, Spec.maxRaise, Scenario.lowHazard,
      Scenario.midHazard])).trans
    (by norm_num [Spec.maxRaise, Scenario.lowHazard, Scenario.midHazard])
